import Mathlib

/-!
# DS18B20 temperature data logger, host side (`PC Data Handler Script/main.c`)

A shallow embedding of `main`, `portNumConnect` and `createCSVFile`.

The serial library (`rs232.h`), the console (`scanf`, `kbhit`, `getch`), the
clock and the file system are external to `main.c`.  They are represented by
explicit inputs: what each call returns is read from an oracle or a list, and
every call the program makes is recorded in a trace of `Event`s.

* `portNumConnect` opens every channel at most once and polls it only during
  that visit, so the behaviour of the transport during discovery is given by
  `Transport.openFails c` (result of `RS232_OpenComport` on channel `c`) and
  `Transport.pollData c i` (bytes delivered by the `i`-th poll of channel `c`).
* a value stored by `scanf("%lf")` is a `double`: a finite value (a rational
  number), an infinity, or a NaN; an entry for which no conversion is made
  leaves `sampleRate` unchanged.  What the C implementation makes of a value
  that is not finite when it converts or prints it is an input of the run.
* loops that wait for the operator (`while(!kbhit())`, the validation loop,
  the ingestion loop) consume a finite list of console inputs; when the list
  ends before the loop does, the run is reported as still waiting.
-/

namespace TempLogger

/-! ## Bytes and buffers -/

/-- An `unsigned char`. -/
abbrev Byte := Fin 256

/-- The global `char handshake = 'W'`. -/
def handshake : Byte := 87

/-- The cancel key `'e'` tested by the ingestion loop. -/
def exitKey : Byte := 101

/-- Element `i` of a byte buffer (`buf[i]`). -/
def byteAt (buf : List Byte) (i : Nat) : Byte := buf.getD i 0

/-- Effect of `RS232_PollComport(port, buf, size)` on `buf` when `data` is what
the line has to offer: at most `size` bytes are copied to the front of the
buffer, the rest of the buffer is left as it was. -/
def pollInto (buf data : List Byte) (size : Nat) : List Byte :=
  data.take size ++ buf.drop (data.take size).length

/-- The bytes printed by `"%s"` for a buffer: everything before the first NUL. -/
def cstr (buf : List Byte) : List Byte := buf.takeWhile (fun b => b != 0)

/-- The bytes of a text written by `fprintf`. -/
def textBytes (s : String) : List Byte :=
  s.toList.map (fun ch => (⟨ch.toNat % 256, Nat.mod_lt _ (by decide)⟩ : Byte))

/-! ## Events -/

/-- The calls of the program that are recorded in the trace of a run. -/
inductive Event where
  /-- Call `RS232_OpenComport(c, baud, mode)`; `failed` is its non-zero result. -/
  | openComport (c : Nat) (failed : Bool)
  /-- Call `RS232_CloseComport(c)`. -/
  | closeComport (c : Nat)
  /-- Call `RS232_PollComport(c, buf, size)` delivering `data`. -/
  | pollComport (c : Nat) (size : Nat) (data : List Byte)
  /-- Call `RS232_SendByte(c, b)`. -/
  | sendByte (c : Nat) (b : Nat)
  /-- The first request for the sampling interval. -/
  | askRate
  /-- The message `That is an invalid input, ...` followed by a new read. -/
  | invalidInput
  /-- Call `fopen(name, "r")`; `found` tells whether a stream was returned. -/
  | fopenRead (name : String) (found : Bool)
  /-- Call `fopen(name, "w+")`. -/
  | fopenWrite (name : String)
  /-- Call `fprintf(fp, ...)` appending `bytes` to the record file. -/
  | fprintf (bytes : List Byte)
  /-- Call `fclose(fp)`. -/
  | fclose
  /-- The message `No data loggers were detected...`. -/
  | notDetected
  deriving DecidableEq, Repr

/-- The serial channel an event acts on, if any. -/
def Event.chan : Event → Option Nat
  | .openComport c _ => some c
  | .closeComport c => some c
  | .pollComport c _ _ => some c
  | .sendByte c _ => some c
  | _ => none

/-- Events of the discovery phase: opening, closing, and 16-byte polls. -/
def Event.isDiscovery : Event → Bool
  | .openComport _ _ => true
  | .closeComport _ => true
  | .pollComport _ size _ => size == 16
  | _ => false

/-! ## Discovery: `portNumConnect` -/

/-- Behaviour of the serial transport during discovery. -/
structure Transport where
  /-- Whether `RS232_OpenComport` on channel `c` returns non-zero (failure). -/
  openFails : Nat → Bool
  /-- What the line of channel `c` offers to the `i`-th poll of that channel. -/
  pollData : Nat → Nat → List Byte

/-- The globals `port`, `flag`, `bufHandshake`, together with the set of
channels currently open and the calls made so far. -/
structure DState where
  port : Nat
  flag : Nat
  bufHandshake : List Byte
  openSet : List Nat
  trace : List Event

/-- State at program start: `port = 0`, `flag = 0`, zeroed `bufHandshake[128]`,
no channel open. -/
def DState.init : DState :=
  { port := 0, flag := 0, bufHandshake := List.replicate 128 0, openSet := [], trace := [] }

/-- The inner loop
`while(timeout != 0 && bufHandshake[0] != handshake){ Sleep(5); RS232_PollComport(port, bufHandshake, 16); timeout--; }`
for channel `c`; `i` counts the polls already made on this channel.
Returns the buffer and the polls made. -/
def handshakeLoop (t : Transport) (c : Nat) : Nat → Nat → List Byte → List Byte × List Event
  | 0, _, buf => (buf, [])
  | timeout + 1, i, buf =>
    if byteAt buf 0 ≠ handshake then
      let r := handshakeLoop t c timeout (i + 1) (pollInto buf (t.pollData c i) 16)
      (r.1, Event.pollComport c 16 ((t.pollData c i).take 16) :: r.2)
    else (buf, [])

/-- One iteration of the outer loop of `portNumConnect`.  The Boolean tells
whether the iteration executed `return`. -/
def scanChannel (t : Transport) (s : DState) : Bool × DState :=
  if t.openFails s.port then
    (false, { s with
      port := s.port + 1
      openSet := s.openSet.filter (fun c => c != s.port)
      trace := s.trace ++ [Event.openComport s.port true, Event.closeComport s.port] })
  else
    let r := handshakeLoop t s.port 100 0 s.bufHandshake
    if byteAt r.1 0 ≠ handshake then
      (false, { s with
        port := s.port + 1
        bufHandshake := r.1
        openSet := (s.port :: s.openSet).filter (fun c => c != s.port)
        trace := s.trace ++ Event.openComport s.port false :: r.2 ++ [Event.closeComport s.port] })
    else
      (true, { s with
        port := s.port + 1 - 1
        flag := 1
        bufHandshake := r.1
        openSet := s.port :: s.openSet
        trace := s.trace ++ Event.openComport s.port false :: r.2 })

/-- How `portNumConnect` ends. -/
inductive Discovery where
  /-- The `return` of line 184: a channel is confirmed. -/
  | returned
  /-- The loop ended without confirmation: line 188 is reached. -/
  | notFound
  /-- The iteration budget of the model ran out (shown impossible below). -/
  | outOfFuel
  deriving DecidableEq, Repr

/-- The loop `while(flag == 0 && port < 20){ ... }` with an iteration budget. -/
def portNumConnectLoop (t : Transport) : Nat → DState → Discovery × DState
  | 0, s => (if s.flag = 0 ∧ s.port < 20 then Discovery.outOfFuel else Discovery.notFound, s)
  | fuel + 1, s =>
    if s.flag = 0 ∧ s.port < 20 then
      let r := scanChannel t s
      if r.1 then (Discovery.returned, r.2) else portNumConnectLoop t fuel r.2
    else (Discovery.notFound, s)

/-- The scan of `portNumConnect()` as called from `main`: the port number grows
by one in every iteration that does not return, so 20 iterations are enough. -/
def portNumConnect (t : Transport) : Discovery × DState :=
  portNumConnectLoop t 20 DState.init

/-- The wait `while(!kbhit()){}` on the successive results of `kbhit()`:
`true` when a key arrives. -/
def waitKey : List Bool → Bool
  | [] => false
  | k :: rest => if k then true else waitKey rest

/-! ## The sampling interval -/

/-- A value of type `double`: a finite value, an infinity, or a NaN. -/
inductive Double where
  /-- A finite value; every finite `double` is a rational number. -/
  | finite (x : ℚ)
  /-- The value `+inf`. -/
  | posInf
  /-- The value `-inf`. -/
  | negInf
  /-- A NaN. -/
  | nan
  deriving DecidableEq

/-- The comparison `d < c` of a `double` with a constant; false for a NaN. -/
def Double.ltConst (d : Double) (c : ℚ) : Prop :=
  match d with
  | Double.finite x => x < c
  | Double.posInf => False
  | Double.negInf => True
  | Double.nan => False

/-- The comparison `d > c` of a `double` with a constant; false for a NaN. -/
def Double.gtConst (d : Double) (c : ℚ) : Prop :=
  match d with
  | Double.finite x => x > c
  | Double.posInf => True
  | Double.negInf => False
  | Double.nan => False

instance (d : Double) (c : ℚ) : Decidable (d.ltConst c) := by
  cases d <;> unfold Double.ltConst <;> infer_instance

instance (d : Double) (c : ℚ) : Decidable (d.gtConst c) := by
  cases d <;> unfold Double.gtConst <;> infer_instance

/-- The test `sampleRate < 1 || sampleRate > 127` of the validation loop. -/
def outOfRange (sampleRate : Double) : Prop := sampleRate.ltConst 1 ∨ sampleRate.gtConst 127

instance (d : Double) : Decidable (outOfRange d) := by unfold outOfRange; infer_instance

/-- Effect of `scanf("%lf", &sampleRate)`: a converted value is stored, a failed
conversion leaves `sampleRate` as it was. -/
def scanfRate (sampleRate : Double) (entry : Option Double) : Double :=
  match entry with
  | some v => v
  | none => sampleRate

/-- The loop `while(sampleRate < 1 || sampleRate > 127){ printf(...); fflush(stdin); scanf(...); }`
over the remaining operator entries.  `none`: the entries ended while the loop
was still asking. -/
def validateLoop : Double → List (Option Double) → Option Double × List Event
  | sampleRate, [] =>
    if outOfRange sampleRate then (none, [Event.invalidInput]) else (some sampleRate, [])
  | sampleRate, e :: rest =>
    if outOfRange sampleRate then
      let r := validateLoop (scanfRate sampleRate e) rest
      (r.1, Event.invalidInput :: r.2)
    else (some sampleRate, [])

/-- Lines 53-59 of `main`: prompt, first read, validation loop.  The global
`sampleRate` starts at `0.0`. -/
def readRate (entries : List (Option Double)) : Option Double × List Event :=
  match entries with
  | [] => (none, [Event.askRate])
  | e :: rest =>
    let r := validateLoop (scanfRate (Double.finite 0) e) rest
    (r.1, Event.askRate :: r.2)

/-- Conversion of a finite `double` to `unsigned char`: the fractional part is
discarded (truncation toward zero). -/
def doubleToUChar (x : ℚ) : Nat := (Int.tdiv x.num x.den % 256).toNat

/-- Conversion of the `double` argument to the `unsigned char` parameter of
`RS232_SendByte`.  For a value that is not finite the language does not define
the result; `nanByte` is the byte the implementation produces. -/
def sendArg (nanByte : Nat) (sampleRate : Double) : Nat :=
  match sampleRate with
  | Double.finite x => doubleToUChar x
  | _ => nanByte % 256

/-- The integer printed by `"%.0f"`: the nearest integer; an exact tie is
resolved by the C library, to even (`halfEven`) or away from zero. -/
def roundF0 (halfEven : Bool) (x : ℚ) : Int :=
  let f := x.num / x.den
  let r2 := 2 * (x.num % x.den)
  if r2 < x.den then f
  else if x.den < r2 then f + 1
  else if halfEven then (if f % 2 = 0 then f else f + 1)
  else (if 0 ≤ x.num then f + 1 else f)

/-- The text printed by `"%.0f"`. -/
def fmtF0 (halfEven : Bool) (x : ℚ) : String :=
  if x.num < 0 ∧ roundF0 halfEven x = 0 then "-0" else toString (roundF0 halfEven x)

/-! ## The record file: `createCSVFile` -/

/-- The fields of `struct tm` used by `createCSVFile`. -/
structure Tm where
  tm_year : Int
  tm_mon : Int
  tm_mday : Int
  tm_hour : Int
  tm_min : Int
  tm_sec : Int

/-- A file system: file names with their contents.  The content of a file is
the sequence of bytes handed to its stream by `fprintf`; the translation of
line ends made by a text-mode stream on the way to the disk is not part of it. -/
abbrev FileSys := List (String × List Byte)

/-- Whether `fopen(name, "r")` returns a stream. -/
def fileExists (fs : FileSys) (name : String) : Bool := fs.any (fun f => f.1 == name)

/-- Effect of `fopen(name, "w+")`: the file is created, or truncated if it exists. -/
def fopenW (fs : FileSys) (name : String) : FileSys :=
  (name, []) :: fs.filter (fun f => f.1 != name)

/-- Effect of `fprintf` on the file called `name`. -/
def fappend (fs : FileSys) (name : String) (bytes : List Byte) : FileSys :=
  fs.map (fun f => if f.1 == name then (f.1, f.2 ++ bytes) else f)

/-- Content of the file called `name`, if it exists. -/
def fileContent (fs : FileSys) (name : String) : Option (List Byte) :=
  (fs.find? (fun f => f.1 == name)).map (fun f => f.2)

/-- The local `datetime` after the six `sprintf`/`strcat` pairs.  The array is
not initialised in the source; `datetime0` is the text it holds on entry. -/
def dateTimeText (datetime0 : String) (tm : Tm) : String :=
  datetime0 ++ (toString (tm.tm_year + 1900) ++ "-") ++ (toString (tm.tm_mon + 1) ++ "-")
    ++ (toString tm.tm_mday ++ "_") ++ (toString tm.tm_hour ++ ".")
    ++ (toString tm.tm_min ++ ".") ++ toString tm.tm_sec

/-- The name tested by `fopen(filename, "r")` on line 135. -/
def probeName (datetime0 : String) (tm : Tm) : String :=
  "Temperature_Dataset_" ++ dateTimeText datetime0 tm

/-- The name passed to `fopen(filename, "w+")` on line 142. -/
def csvName (fs : FileSys) (datetime0 : String) (tm : Tm) : String :=
  (if fileExists fs (probeName datetime0 tm) then probeName datetime0 tm ++ "_V2"
   else probeName datetime0 tm) ++ ".csv"

/-- The text printed by `"%.0f"` for the global `sampleRate`; `nanText` is what
the C library prints for a value that is not finite. -/
def fmtRate (halfEven : Bool) (nanText : String) (sampleRate : Double) : String :=
  match sampleRate with
  | Double.finite x => fmtF0 halfEven x
  | _ => nanText

/-- The first `fprintf` of `createCSVFile` (line 144). -/
def headerText (datetime : String) (halfEven : Bool) (nanText : String)
    (sampleRate : Double) : String :=
  "Date & Time:," ++ datetime ++ "\nSecond per Sample:,"
    ++ fmtRate halfEven nanText sampleRate ++ "\n\n"

/-- The second `fprintf` of `createCSVFile` (line 145). -/
def columnText : String :=
  "Time (H:M:S),Delta Time(Sec),Sensor1 (Cel),Sensor2 (Cel),Sensor3 (Cel),Sensor4 (Cel)\n"

/-- The function `createCSVFile()`: returns the name of the file behind `fp`,
the file system afterwards and the calls made. -/
def createCSVFile (fs : FileSys) (datetime0 : String) (tm : Tm) (halfEven : Bool)
    (nanText : String) (sampleRate : Double) : String × FileSys × List Event :=
  let probe := probeName datetime0 tm
  let filename := csvName fs datetime0 tm
  let h1 := textBytes (headerText (dateTimeText datetime0 tm) halfEven nanText sampleRate)
  let h2 := textBytes columnText
  (filename,
   fappend (fappend (fopenW fs filename) filename h1) filename h2,
   [Event.fopenRead probe (fileExists fs probe), Event.fopenWrite filename,
    Event.fprintf h1, Event.fprintf h2])

/-! ## The ingestion loop -/

/-- One pass through the body of the ingestion loop: the bytes delivered by the
poll and the bytes given to `fprintf`. -/
structure Cycle where
  polled : List Byte
  written : List Byte
  deriving DecidableEq, Repr

/-- The loop of lines 77-90.  Each element of the list describes the console
and the line at one iteration: the key waiting (`kbhit()` true and the value of
`getch()`), and the bytes the line offers to the 2-byte poll.  The Boolean of
the result tells whether the loop was left. -/
def ingestLoop : Byte → List (Option Byte × List Byte) → Bool × List Cycle
  | exitChar, [] => (decide (exitChar = exitKey), [])
  | exitChar, (key, data) :: rest =>
    if exitChar ≠ exitKey then
      let exitChar1 := match key with
        | some k => k
        | none => exitChar
      let buf := pollInto (List.replicate 4096 0) data 2
      let r := ingestLoop exitChar1 rest
      (r.1, { polled := data.take 2, written := cstr buf } :: r.2)
    else (true, [])

/-- The calls made by one cycle: the poll and the `fprintf` to the file. -/
def Cycle.events (port : Nat) (c : Cycle) : List Event :=
  [Event.pollComport port 2 c.polled, Event.fprintf c.written]

/-! ## `main` -/

/-- Everything `main` reads from outside. -/
structure Inputs where
  /-- The serial transport during discovery. -/
  transport : Transport
  /-- Results of `kbhit()` while waiting on the not-found path. -/
  ackKeys : List Bool
  /-- What the successive `scanf("%lf")` calls read (`none`: no conversion). -/
  entries : List (Option Double)
  /-- The local time. -/
  now : Tm
  /-- Content of the uninitialised local `datetime` of `createCSVFile`. -/
  datetime0 : String
  /-- Tie rule of `"%.0f"` in the C library. -/
  halfEven : Bool
  /-- The byte the implementation makes of a `double` that is not finite. -/
  nanByte : Nat
  /-- What `"%.0f"` prints for a `double` that is not finite. -/
  nanText : String
  /-- The files present. -/
  files : FileSys
  /-- What the line offers to the 4096-byte poll of line 70. -/
  bootData : List Byte
  /-- Value of the uninitialised local `exitChar`. -/
  exitChar0 : Byte
  /-- Console and line at the successive iterations of the ingestion loop. -/
  iterations : List (Option Byte × List Byte)

/-- How a run of `main` ends, or where it is when its inputs end. -/
inductive Outcome where
  /-- The call `exit(EXIT_FAILURE)` of `portNumConnect`. -/
  | exitFailure
  /-- Still in `while(!kbhit()){}` of `portNumConnect`. -/
  | awaitingKey
  /-- Still asking for the sampling interval. -/
  | awaitingRate
  /-- Still in the ingestion loop. -/
  | logging
  /-- The end of `main` was reached. -/
  | finished
  /-- Discovery ran out of iteration budget. -/
  | stuck
  deriving DecidableEq, Repr

/-- Result of a run of `main`. -/
structure Run where
  outcome : Outcome
  trace : List Event
  files : FileSys
  /-- Name of the file behind `fp`, once created. -/
  fp : Option String

/-- The part of `main` after `portNumConnect` has returned with state `d`. -/
def session (inp : Inputs) (d : DState) : Run :=
  let rr := readRate inp.entries
  match rr.1 with
  | none => { outcome := Outcome.awaitingRate, trace := d.trace ++ rr.2, files := inp.files, fp := none }
  | some sampleRate =>
    let send := Event.sendByte d.port (sendArg inp.nanByte sampleRate)
    let csv := createCSVFile inp.files inp.datetime0 inp.now inp.halfEven inp.nanText sampleRate
    let boot := Event.pollComport d.port 4096 (inp.bootData.take 4096)
    let lp := ingestLoop inp.exitChar0 inp.iterations
    let written := (lp.2.map (fun c => c.written)).flatten
    let tr := d.trace ++ rr.2 ++ send :: csv.2.2 ++ boot :: (lp.2.map (Cycle.events d.port)).flatten
    if lp.1 then
      { outcome := Outcome.finished
        trace := tr ++ [Event.fclose, Event.closeComport d.port]
        files := fappend csv.2.1 csv.1 written
        fp := some csv.1 }
    else
      { outcome := Outcome.logging, trace := tr, files := fappend csv.2.1 csv.1 written, fp := some csv.1 }

/-- The function `main()`. -/
def main (inp : Inputs) : Run :=
  let d := portNumConnect inp.transport
  match d.1 with
  | Discovery.returned => session inp d.2
  | Discovery.notFound =>
    { outcome := if waitKey inp.ackKeys then Outcome.exitFailure else Outcome.awaitingKey
      trace := d.2.trace ++ [Event.notDetected]
      files := inp.files
      fp := none }
  | Discovery.outOfFuel =>
    { outcome := Outcome.stuck, trace := d.2.trace, files := inp.files, fp := none }

/-! ## Vocabulary of the statements -/

/-- A poll result whose first byte is the sentinel `'W'`. -/
def sentinelFirst (d : List Byte) : Bool := d.head? == some handshake

/-- Number of polls made by the handshake loop on channel `c` when `n` attempts
remain, `i` polls were made before and the sentinel is not in the buffer. -/
def pollCount (t : Transport) (c : Nat) : Nat → Nat → Nat
  | 0, _ => 0
  | n + 1, i => if sentinelFirst (t.pollData c i) then 1 else pollCount t c n (i + 1) + 1

/-- The sentinel arrives on channel `c` within its first 100 polls. -/
def heard (t : Transport) (c : Nat) : Bool :=
  (List.range 100).any (fun j => sentinelFirst (t.pollData c j))

/-- Channel `c` opens and the sentinel arrives within its first 100 polls. -/
def responsive (t : Transport) (c : Nat) : Bool := !t.openFails c && heard t c

/-- The poll event number `j` of channel `c` during discovery. -/
def pollEvent (t : Transport) (c j : Nat) : Event :=
  Event.pollComport c 16 ((t.pollData c j).take 16)

/-- The calls made by one visit of channel `c` during discovery. -/
def visit (t : Transport) (c : Nat) : List Event :=
  if t.openFails c then [Event.openComport c true, Event.closeComport c]
  else Event.openComport c false :: (List.range (pollCount t c 100 0)).map (pollEvent t c)
    ++ (if heard t c then [] else [Event.closeComport c])

/-- What holds whenever the outer loop is about to test its condition before a
return: nothing is confirmed, the sentinel is not in the buffer, no channel is
open. -/
def Scanning (s : DState) : Prop :=
  s.flag = 0 ∧ byteAt s.bufHandshake 0 ≠ handshake ∧ s.openSet = []


/-- What a scan started in state `s` has done when it ends with `r`: either it
returned on the first responsive channel at or after `s.port`, which is the
only channel open, or no channel from `s.port` to 19 is responsive and none is
open; the calls made are the visits of the channels scanned, in order. -/
def ScanPost (t : Transport) (s : DState) (r : Discovery × DState) : Prop :=
  (r.1 = Discovery.returned ∧ s.port ≤ r.2.port ∧ r.2.port < 20 ∧
      responsive t r.2.port = true ∧
      (∀ c, s.port ≤ c → c < r.2.port → responsive t c = false) ∧
      r.2.flag = 1 ∧ r.2.openSet = [r.2.port] ∧
      r.2.trace = s.trace ++ (List.range' s.port (r.2.port + 1 - s.port)).flatMap (visit t))
  ∨ (r.1 = Discovery.notFound ∧ r.2.port = 20 ∧
      (∀ c, s.port ≤ c → c < 20 → responsive t c = false) ∧
      r.2.flag = 0 ∧ r.2.openSet = [] ∧
      r.2.trace = s.trace ++ (List.range' s.port (20 - s.port)).flatMap (visit t))

/-- The data delivered by the polls of channel `c` in a trace, in order. -/
def pollsOn (c : Nat) (tr : List Event) : List (List Byte) :=
  tr.filterMap (fun e =>
    match e with
    | Event.pollComport c1 _ d => if c1 = c then some d else none
    | _ => none)

/-- The bytes passed to `RS232_SendByte` in a trace, in order. -/
def sentBytes (tr : List Event) : List Nat :=
  tr.filterMap (fun e =>
    match e with
    | Event.sendByte _ b => some b
    | _ => none)

/-- A transport for examples: channel 0 cannot be opened, channel 1 opens but
stays silent, channel 2 answers `W` to its first poll. -/
def demoTransport : Transport :=
  { openFails := fun c => c == 0
    pollData := fun c _ => if c = 2 then [87, 13] else [] }

/-- A transport on which no channel can be opened. -/
def deadTransport : Transport :=
  { openFails := fun _ => true
    pollData := fun _ _ => [] }

/-- A date for examples: 11 September 2018, 10:05:07. -/
def demoTime : Tm :=
  { tm_year := 118, tm_mon := 8, tm_mday := 11, tm_hour := 10, tm_min := 5, tm_sec := 7 }

/-- A run with no data logger attached; the operator presses a key at the
third look of `kbhit()`. -/
def deadInputs : Inputs :=
  { transport := deadTransport
    ackKeys := [false, false, true]
    entries := [some (Double.finite 5)]
    now := demoTime
    datetime0 := ""
    halfEven := true
    nanByte := 0
    nanText := "nan"
    files := []
    bootData := []
    exitChar0 := 0
    iterations := [(some 101, [65, 49])] }

/-- A transport on which channel 0 answers `W` to its first poll. -/
def quickTransport : Transport :=
  { openFails := fun _ => false
    pollData := fun _ _ => [87] }

/-- A run in which the operator enters 200, then something that is not a
number, then 5, and presses `e` during the second cycle of the logging. -/
def demoInputs : Inputs :=
  { transport := quickTransport
    ackKeys := []
    entries := [some (Double.finite 200), none, some (Double.finite 5), some (Double.finite 7)]
    now := demoTime
    datetime0 := ""
    halfEven := true
    nanByte := 0
    nanText := "nan"
    files := []
    bootData := [87, 87]
    exitChar0 := 0
    iterations := [(none, [65, 49]), (some 101, [66, 50]), (none, [67, 51])] }

/-- A run in which the operator enters the interval 1.25. -/
def fracInputs : Inputs :=
  { demoInputs with entries := [some (Double.finite (mkRat 5 4))] }

/-- A run in which the operator enters 300 and then `nan`, on an
implementation that converts a NaN to the byte 0. -/
def nanInputs : Inputs :=
  { demoInputs with entries := [some (Double.finite 300), some Double.nan] }

/-- What one iteration of the ingestion loop polls and writes, stated without
the buffer: the first two bytes offered, and of these the ones in front of the
first zero byte. -/
def cycleOf (it : Option Byte × List Byte) : Cycle :=
  { polled := it.2.take 2, written := (it.2.take 2).takeWhile (fun b => b != 0) }

/-- A run in which the line delivers a zero byte followed by `A`. -/
def zeroInputs : Inputs :=
  { demoInputs with iterations := [(some 101, [0, 65])] }

/-- A first session: `createCSVFile` at `demoTime` in an empty directory, with
interval 5. -/
def firstSession : String × FileSys × List Event :=
  createCSVFile [] "" demoTime true "nan" (Double.finite 5)

/-- A second session in the same clock second, with interval 9, in the
directory left by the first one. -/
def secondSession : String × FileSys × List Event :=
  createCSVFile firstSession.2.1 "" demoTime true "nan" (Double.finite 9)
/-! ## The handshake loop -/

/-- The constants are the character codes of `'W'` and `'e'`. -/
theorem char_codes : handshake.val = 'W'.toNat ∧ exitKey.val = 'e'.toNat := by
  decide

theorem byteAt_pollInto (buf d : List Byte) (n : Nat) :
    byteAt (pollInto buf d (n + 1)) 0 = (d.head?).getD (byteAt buf 0) := by
  cases d with
  | nil => simp [pollInto]
  | cons x xs => simp [pollInto, byteAt]

theorem byteAt_pollInto_eq (buf d : List Byte) (n : Nat) (h : byteAt buf 0 ≠ handshake) :
    byteAt (pollInto buf d (n + 1)) 0 = handshake ↔ sentinelFirst d = true := by
  rw [byteAt_pollInto]
  cases d with
  | nil => simp [sentinelFirst, h]
  | cons x xs => simp [sentinelFirst]

theorem handshakeLoop_done (t : Transport) (c n i : Nat) (buf : List Byte)
    (h : byteAt buf 0 = handshake) : handshakeLoop t c n i buf = (buf, []) := by
  cases n with
  | zero => rfl
  | succ n => simp [handshakeLoop, h]

theorem handshakeLoop_spec (t : Transport) (c : Nat) :
    ∀ (n i : Nat) (buf : List Byte), byteAt buf 0 ≠ handshake →
      ((byteAt (handshakeLoop t c n i buf).1 0 = handshake ↔
          ∃ j, j < n ∧ sentinelFirst (t.pollData c (i + j)) = true) ∧
        (handshakeLoop t c n i buf).2
          = (List.range (pollCount t c n i)).map (fun j => pollEvent t c (i + j))) := by
  intro n
  induction n with
  | zero => intro i buf h; simp [handshakeLoop, pollCount, h]
  | succ n ih =>
    intro i buf h
    by_cases hw : sentinelFirst (t.pollData c i) = true
    · have hb := (byteAt_pollInto_eq buf (t.pollData c i) 15 h).2 hw
      simp only [handshakeLoop, h, ne_eq, not_false_eq_true, if_true,
        handshakeLoop_done t c n (i + 1) _ hb, pollCount, hw]
      exact ⟨⟨fun _ => ⟨0, Nat.succ_pos n, hw⟩, fun _ => hb⟩, rfl⟩
    · have hb : byteAt (pollInto buf (t.pollData c i) 16) 0 ≠ handshake := fun hb =>
        hw ((byteAt_pollInto_eq buf (t.pollData c i) 15 h).1 hb)
      obtain ⟨ih1, ih2⟩ := ih (i + 1) _ hb
      simp only [handshakeLoop, h, ne_eq, not_false_eq_true, if_true, pollCount, hw,
        Bool.false_eq_true, if_false]
      constructor
      · rw [ih1]
        constructor
        · rintro ⟨j, hj, hjw⟩
          exact ⟨j + 1, Nat.succ_lt_succ hj, by rw [← hjw]; congr 2; omega⟩
        · rintro ⟨j, hj, hjw⟩
          cases j with
          | zero => exact absurd hjw hw
          | succ j => exact ⟨j, Nat.lt_of_succ_lt_succ hj, by rw [← hjw]; congr 2; omega⟩
      · rw [ih2, List.range_succ_eq_map]
        simp only [List.map_cons, List.map_map, pollEvent, Nat.add_zero]
        congr 1
        apply List.map_congr_left
        intro j _
        simp only [Function.comp]
        have : i + 1 + j = i + (j + 1) := by omega
        rw [this]

theorem heard_iff (t : Transport) (c : Nat) :
    heard t c = true ↔ ∃ j, j < 100 ∧ sentinelFirst (t.pollData c j) = true := by
  simp [heard, List.any_eq_true, List.mem_range]

theorem pollCount_le (t : Transport) (c : Nat) : ∀ n i, pollCount t c n i ≤ n := by
  intro n
  induction n with
  | zero => intro i; simp [pollCount]
  | succ n ih =>
    intro i
    simp only [pollCount]
    split
    · omega
    · have := ih (i + 1); omega

theorem pollCount_pos (t : Transport) (c n i : Nat) : 0 < pollCount t c (n + 1) i := by
  simp only [pollCount]
  split <;> omega

theorem pollCount_before (t : Transport) (c : Nat) :
    ∀ n i j, j + 1 < pollCount t c n i → sentinelFirst (t.pollData c (i + j)) = false := by
  intro n
  induction n with
  | zero => intro i j h; simp [pollCount] at h
  | succ n ih =>
    intro i j h
    simp only [pollCount] at h
    split at h
    · omega
    · rename_i hw
      cases j with
      | zero => simpa using hw
      | succ j =>
        have := ih (i + 1) j (by omega)
        rw [← this]; congr 2; omega

theorem pollCount_hit (t : Transport) (c : Nat) :
    ∀ n i, (∃ j, j < n ∧ sentinelFirst (t.pollData c (i + j)) = true) ↔
      (∃ j, j < pollCount t c n i ∧ sentinelFirst (t.pollData c (i + j)) = true) := by
  intro n
  induction n with
  | zero => intro i; simp [pollCount]
  | succ n ih =>
    intro i
    by_cases hw : sentinelFirst (t.pollData c i) = true
    · simp only [pollCount, hw, if_true]
      exact ⟨fun _ => ⟨0, Nat.one_pos, hw⟩, fun _ => ⟨0, Nat.succ_pos n, hw⟩⟩
    · simp only [pollCount, hw, Bool.false_eq_true, if_false]
      constructor
      · rintro ⟨j, hj, hjw⟩
        cases j with
        | zero => exact absurd hjw hw
        | succ j =>
          obtain ⟨j', hj', hjw'⟩ := (ih (i + 1)).1 ⟨j, by omega, by rw [← hjw]; congr 2; omega⟩
          exact ⟨j' + 1, by omega, by rw [← hjw']; congr 2; omega⟩
      · rintro ⟨j, hj, hjw⟩
        exact ⟨j, by have := pollCount_le t c n (i + 1); omega, hjw⟩

/-! ## One visit of a channel -/

theorem scanChannel_trace (t : Transport) (s : DState) (hs : Scanning s) :
    (scanChannel t s).2.trace = s.trace ++ visit t s.port := by
  obtain ⟨_, hb, _⟩ := hs
  obtain ⟨h1, h2⟩ := handshakeLoop_spec t s.port 100 0 s.bufHandshake hb
  simp only [Nat.zero_add] at h1 h2
  rw [← heard_iff] at h1
  unfold scanChannel visit
  by_cases ho : t.openFails s.port = true
  · simp [ho]
  · by_cases hh : heard t s.port = true
    · simp [ho, hh, h1, h2]
    · simp [ho, hh, h1, h2]

theorem scanChannel_skip (t : Transport) (s : DState) (hs : Scanning s)
    (hr : responsive t s.port = false) :
    (scanChannel t s).1 = false ∧ (scanChannel t s).2.port = s.port + 1 ∧
      Scanning (scanChannel t s).2 := by
  obtain ⟨hf, hb, ho⟩ := hs
  obtain ⟨h1, h2⟩ := handshakeLoop_spec t s.port 100 0 s.bufHandshake hb
  simp only [Nat.zero_add] at h1 h2
  rw [← heard_iff] at h1
  unfold scanChannel Scanning
  by_cases hop : t.openFails s.port = true
  · simp [hop, hf, hb, ho]
  · have hh : heard t s.port = false := by simpa [responsive, hop] using hr
    have hne : ¬ byteAt (handshakeLoop t s.port 100 0 s.bufHandshake).1 0 = handshake := by
      rw [h1, hh]; simp
    simp [hop, hne, hf, ho]

theorem scanChannel_confirm (t : Transport) (s : DState) (hs : Scanning s)
    (hr : responsive t s.port = true) :
    (scanChannel t s).1 = true ∧ (scanChannel t s).2.port = s.port ∧
      (scanChannel t s).2.flag = 1 ∧ (scanChannel t s).2.openSet = [s.port] := by
  obtain ⟨hf, hb, ho⟩ := hs
  obtain ⟨h1, h2⟩ := handshakeLoop_spec t s.port 100 0 s.bufHandshake hb
  simp only [Nat.zero_add] at h1 h2
  rw [← heard_iff] at h1
  simp only [responsive, Bool.and_eq_true, Bool.not_eq_true'] at hr
  unfold scanChannel
  have hw := h1.2 hr.2
  simp [hr.1, hw, ho]

/-! ## The scan -/

theorem portNumConnectLoop_spec (t : Transport) :
    ∀ (fuel : Nat) (s : DState), Scanning s → s.port ≤ 20 → 20 ≤ s.port + fuel →
      ScanPost t s (portNumConnectLoop t fuel s) := by
  intro fuel
  induction fuel with
  | zero =>
    intro s hs hle hfuel
    have hp : s.port = 20 := by omega
    right
    simp [portNumConnectLoop, hp, hs.1, hs.2.2]
    intro c h1 h2; omega
  | succ fuel ih =>
    intro s hs hle hfuel
    by_cases hp : s.port < 20
    · have hcond : s.flag = 0 ∧ s.port < 20 := ⟨hs.1, hp⟩
      cases hr : responsive t s.port with
      | true =>
        obtain ⟨c1, c2, c3, c4⟩ := scanChannel_confirm t s hs hr
        have hloop : portNumConnectLoop t (fuel + 1) s
            = (Discovery.returned, (scanChannel t s).2) := by
          simp only [portNumConnectLoop, hcond, and_self, if_true, c1]
        rw [hloop]
        left
        dsimp only
        refine ⟨rfl, by omega, by omega, by rw [c2]; exact hr, ?_, c3, by rw [c4, c2], ?_⟩
        · intro c h1 h2; omega
        · rw [scanChannel_trace t s hs, c2]
          simp
      | false =>
        obtain ⟨c1, c2, c3⟩ := scanChannel_skip t s hs hr
        have hrec := ih (scanChannel t s).2 c3 (by omega) (by omega)
        have hloop : portNumConnectLoop t (fuel + 1) s
            = portNumConnectLoop t fuel (scanChannel t s).2 := by
          simp only [portNumConnectLoop, hcond, and_self, if_true, c1, Bool.false_eq_true, if_false]
        rw [hloop]
        have hvis : ∀ k, s.port + 1 ≤ k →
            (List.range' s.port (k - s.port)).flatMap (visit t)
              = visit t s.port ++ (List.range' (s.port + 1) (k - (s.port + 1))).flatMap (visit t) := by
          intro k hk
          have : k - s.port = (k - (s.port + 1)) + 1 := by omega
          rw [this, List.range'_succ]
          simp
        have hbelow : ∀ k, (∀ c, s.port + 1 ≤ c → c < k → responsive t c = false) →
            ∀ c, s.port ≤ c → c < k → responsive t c = false := by
          intro k h c h1 h2
          by_cases hc : c = s.port
          · rw [hc]; exact hr
          · exact h c (by omega) h2
        rcases hrec with ⟨r1, r2, r3, r4, r5, r6, r7, r8⟩ | ⟨r1, r2, r3, r4, r5, r6⟩
        · left
          rw [c2] at r2 r5 r8
          refine ⟨r1, by omega, r3, r4, hbelow _ r5, r6, r7, ?_⟩
          rw [r8, scanChannel_trace t s hs, hvis _ (by omega), List.append_assoc]
        · right
          rw [c2] at r3 r6
          refine ⟨r1, r2, hbelow _ r3, r4, r5, ?_⟩
          rw [r6, scanChannel_trace t s hs, hvis _ (by omega), List.append_assoc]
    · have hp20 : s.port = 20 := by omega
      right
      simp [portNumConnectLoop, hp20, hs.1, hs.2.2]
      intro c h1 h2; omega

theorem scanning_init : Scanning DState.init := by
  refine ⟨rfl, ?_, rfl⟩
  decide

theorem portNumConnect_spec (t : Transport) : ScanPost t DState.init (portNumConnect t) := by
  unfold portNumConnect
  exact portNumConnectLoop_spec t 20 DState.init scanning_init (Nat.zero_le 20) (Nat.le_refl 20)

/-! ## The calls of a visit -/

theorem sentinelFirst_take (d : List Byte) (n : Nat) :
    sentinelFirst (d.take (n + 1)) = sentinelFirst d := by
  cases d <;> simp [sentinelFirst]

theorem not_responsive_of_silent (t : Transport) (c : Nat)
    (h : t.openFails c = true ∨ ∀ i, sentinelFirst (t.pollData c i) = false) :
    responsive t c = false := by
  rcases h with h | h
  · simp [responsive, h]
  · have : heard t c = false := by
      rw [Bool.eq_false_iff, Ne, heard_iff]
      rintro ⟨j, _, hj⟩
      rw [h j] at hj
      exact Bool.false_ne_true hj
    simp [responsive, this]

theorem responsive_of_answer (t : Transport) (c : Nat) (ho : t.openFails c = false)
    (h : ∃ i, i < 100 ∧ sentinelFirst (t.pollData c i) = true) : responsive t c = true := by
  simp [responsive, ho, (heard_iff t c).2 h]

theorem visit_chan (t : Transport) (c : Nat) : ∀ e ∈ visit t c, e.chan = some c := by
  intro e he
  unfold visit at he
  split at he
  · simp at he
    rcases he with rfl | rfl <;> rfl
  · simp only [List.cons_append, List.mem_cons, List.mem_append, List.mem_map] at he
    rcases he with rfl | ⟨j, _, rfl⟩ | he
    · rfl
    · rfl
    · split at he
      · simp at he
      · simp at he; rw [he]; rfl

theorem visit_isDiscovery (t : Transport) (c : Nat) : ∀ e ∈ visit t c, e.isDiscovery = true := by
  intro e he
  unfold visit at he
  split at he
  · simp at he
    rcases he with rfl | rfl <;> rfl
  · simp only [List.cons_append, List.mem_cons, List.mem_append, List.mem_map] at he
    rcases he with rfl | ⟨j, _, rfl⟩ | he
    · rfl
    · rfl
    · split at he
      · simp at he
      · simp at he; rw [he]; rfl

theorem visit_opens (t : Transport) (c : Nat) :
    Event.openComport c (t.openFails c) ∈ visit t c := by
  unfold visit
  cases h : t.openFails c <;> simp

theorem visit_closes (t : Transport) (c : Nat) (h : responsive t c = false) :
    Event.closeComport c ∈ visit t c := by
  unfold visit
  cases ho : t.openFails c
  · have : heard t c = false := by simpa [responsive, ho] using h
    simp [this]
  · simp

/-- The trace of a scan that started at channel 0 consists of the visits of the
channels `0 .. n - 1`. -/
theorem mem_visits (t : Transport) (n : Nat) (e : Event) :
    e ∈ (List.range' 0 n).flatMap (visit t) ↔ ∃ c, c < n ∧ e ∈ visit t c := by
  simp [List.mem_flatMap, List.mem_range']

theorem scanPost_init (t : Transport) (s : DState) (r : Discovery × DState)
    (hp : s.port = 0) (ht : s.trace = []) (h : ScanPost t s r) :
    (r.1 = Discovery.returned ∧ r.2.port < 20 ∧
        responsive t r.2.port = true ∧
        (∀ c, c < r.2.port → responsive t c = false) ∧
        r.2.flag = 1 ∧ r.2.openSet = [r.2.port] ∧
        r.2.trace = (List.range' 0 (r.2.port + 1)).flatMap (visit t))
    ∨ (r.1 = Discovery.notFound ∧ r.2.port = 20 ∧
        (∀ c, c < 20 → responsive t c = false) ∧
        r.2.flag = 0 ∧ r.2.openSet = [] ∧
        r.2.trace = (List.range' 0 20).flatMap (visit t)) := by
  unfold ScanPost at h
  rw [hp, ht] at h
  rcases h with ⟨r1, _, r3, r4, r5, r6, r7, r8⟩ | ⟨r1, r2, r3, r4, r5, r6⟩
  · left
    rw [Nat.sub_zero, List.nil_append] at r8
    exact ⟨r1, r3, r4, fun c hc => r5 c (Nat.zero_le c) hc, r6, r7, r8⟩
  · right
    rw [Nat.sub_zero, List.nil_append] at r6
    exact ⟨r1, r2, fun c hc => r3 c (Nat.zero_le c) hc, r4, r5, r6⟩

/-- Trace, port and open channels at the end of `portNumConnect`. -/
theorem portNumConnect_cases (t : Transport) :
    ((portNumConnect t).1 = Discovery.returned ∧ (portNumConnect t).2.port < 20 ∧
        responsive t (portNumConnect t).2.port = true ∧
        (∀ c, c < (portNumConnect t).2.port → responsive t c = false) ∧
        (portNumConnect t).2.flag = 1 ∧
        (portNumConnect t).2.openSet = [(portNumConnect t).2.port] ∧
        (portNumConnect t).2.trace
          = (List.range' 0 ((portNumConnect t).2.port + 1)).flatMap (visit t))
    ∨ ((portNumConnect t).1 = Discovery.notFound ∧ (portNumConnect t).2.port = 20 ∧
        (∀ c, c < 20 → responsive t c = false) ∧
        (portNumConnect t).2.flag = 0 ∧ (portNumConnect t).2.openSet = [] ∧
        (portNumConnect t).2.trace = (List.range' 0 20).flatMap (visit t)) :=
  scanPost_init t DState.init (portNumConnect t) rfl rfl (portNumConnect_spec t)

/-! ## The polls of one channel -/

theorem pollsOn_append (c : Nat) (a b : List Event) :
    pollsOn c (a ++ b) = pollsOn c a ++ pollsOn c b := by
  simp [pollsOn, List.filterMap_append]

theorem pollsOn_visit_other (t : Transport) (c c1 : Nat) (h : c1 ≠ c) :
    pollsOn c (visit t c1) = [] := by
  unfold pollsOn
  rw [List.filterMap_eq_nil_iff]
  intro e he
  have hc := visit_chan t c1 e he
  cases e <;> simp_all [Event.chan]

theorem pollsOn_visit (t : Transport) (c : Nat) (ho : t.openFails c = false) :
    pollsOn c (visit t c)
      = (List.range (pollCount t c 100 0)).map (fun j => (t.pollData c j).take 16) := by
  unfold visit
  rw [if_neg (by simp [ho])]
  have h1 : pollsOn c ((List.range (pollCount t c 100 0)).map (pollEvent t c))
      = (List.range (pollCount t c 100 0)).map (fun j => (t.pollData c j).take 16) := by
    generalize List.range (pollCount t c 100 0) = l
    induction l with
    | nil => rfl
    | cons a l ih =>
      simp only [pollsOn, pollEvent, List.map_cons, List.filterMap_cons, if_true] at ih ⊢
      rw [ih]
  have h2 : pollsOn c (if heard t c = true then [] else [Event.closeComport c]) = [] := by
    split <;> rfl
  rw [List.cons_append, ← List.singleton_append, pollsOn_append, pollsOn_append, h1, h2]
  simp [pollsOn]

theorem pollsOn_visits (t : Transport) (c : Nat) :
    ∀ l : List Nat, l.Nodup → c ∈ l →
      pollsOn c (l.flatMap (visit t)) = pollsOn c (visit t c) := by
  intro l
  induction l with
  | nil => intro _ h; simp at h
  | cons a l ih =>
    intro hn hc
    rw [List.nodup_cons] at hn
    rw [List.flatMap_cons, pollsOn_append]
    by_cases hac : a = c
    · subst hac
      have : pollsOn a (l.flatMap (visit t)) = [] := by
        unfold pollsOn
        rw [List.filterMap_eq_nil_iff]
        intro e he
        rw [List.mem_flatMap] at he
        obtain ⟨c1, hc1, hev⟩ := he
        have hch := visit_chan t c1 e hev
        have hne : c1 ≠ a := fun h => hn.1 (h ▸ hc1)
        cases e <;> simp_all [Event.chan]
      rw [this, List.append_nil]
    · have hcl : c ∈ l := by
        rcases List.mem_cons.1 hc with h | h
        · exact absurd h.symm hac
        · exact h
      rw [pollsOn_visit_other t c a hac, List.nil_append, ih hn.2 hcl]

theorem open_false_mem_visit (t : Transport) (c c1 : Nat)
    (h : Event.openComport c false ∈ visit t c1) : c1 = c ∧ t.openFails c = false := by
  have hc := visit_chan t c1 _ h
  simp only [Event.chan, Option.some.injEq] at hc
  subst hc
  refine ⟨rfl, ?_⟩
  cases ho : t.openFails c
  · rfl
  · unfold visit at h
    simp [ho] at h

/-! ## The sampling interval -/

theorem outOfRange_zero : outOfRange (Double.finite 0) := by
  unfold outOfRange Double.ltConst; left; norm_num

theorem validateLoop_accept (x : Double) (hx : ¬ outOfRange x) (rest : List (Option Double)) :
    validateLoop x rest = (some x, []) := by
  cases rest <;> simp [validateLoop, hx]

theorem scanfRate_rejected (sr : Double) (hsr : outOfRange sr) (e : Option Double)
    (he : ∀ v, e = some v → outOfRange v) : outOfRange (scanfRate sr e) := by
  cases e with
  | none => exact hsr
  | some v => exact he v rfl

theorem validateLoop_reject (sr : Double) (hsr : outOfRange sr) (e : Option Double)
    (rest : List (Option Double)) :
    validateLoop sr (e :: rest)
      = ((validateLoop (scanfRate sr e) rest).1,
          Event.invalidInput :: (validateLoop (scanfRate sr e) rest).2) := by
  simp [validateLoop, hsr]

theorem validateLoop_first_valid (x : Double) (hx : ¬ outOfRange x) (rest : List (Option Double)) :
    ∀ (pre : List (Option Double)) (sr : Double), outOfRange sr →
      (∀ e ∈ pre, ∀ v, e = some v → outOfRange v) →
      validateLoop sr (pre ++ some x :: rest)
        = (some x, List.replicate (pre.length + 1) Event.invalidInput) := by
  intro pre
  induction pre with
  | nil =>
    intro sr hsr _
    simp [validateLoop, hsr, scanfRate, validateLoop_accept x hx rest]
  | cons e pre ih =>
    intro sr hsr hpre
    have h1 := scanfRate_rejected sr hsr e (hpre e (List.mem_cons_self e pre))
    have h2 := ih (scanfRate sr e) h1 (fun e1 he1 => hpre e1 (List.mem_cons_of_mem e he1))
    rw [List.cons_append, validateLoop_reject sr hsr, h2]
    rfl

theorem validateLoop_events :
    ∀ (es : List (Option Double)) (sr : Double), ∀ e ∈ (validateLoop sr es).2, e = Event.invalidInput := by
  intro es
  induction es with
  | nil =>
    intro sr e he
    by_cases hsr : outOfRange sr
    · simpa [validateLoop, hsr] using he
    · simp [validateLoop, hsr] at he
  | cons e1 es ih =>
    intro sr e he
    by_cases hsr : outOfRange sr
    · simp only [validateLoop, hsr, if_true, List.mem_cons] at he
      rcases he with he | he
      · exact he
      · exact ih _ e he
    · simp [validateLoop, hsr] at he

theorem readRate_first_valid (x : Double) (hx : ¬ outOfRange x) (pre rest : List (Option Double))
    (hpre : ∀ e ∈ pre, ∀ v, e = some v → outOfRange v) :
    readRate (pre ++ some x :: rest)
      = (some x, Event.askRate :: List.replicate pre.length Event.invalidInput) := by
  cases pre with
  | nil => simp [readRate, scanfRate, validateLoop_accept x hx rest]
  | cons e pre =>
    have h1 := scanfRate_rejected (Double.finite 0) outOfRange_zero e (hpre e (List.mem_cons_self e pre))
    have h2 := validateLoop_first_valid x hx rest pre (scanfRate (Double.finite 0) e) h1
      (fun e1 he1 => hpre e1 (List.mem_cons_of_mem e he1))
    simp only [List.cons_append, readRate, h2, List.length_cons]

theorem readRate_events (es : List (Option Double)) :
    ∀ e ∈ (readRate es).2, e = Event.askRate ∨ e = Event.invalidInput := by
  intro e he
  cases es with
  | nil => left; simpa [readRate] using he
  | cons e1 es =>
    simp only [readRate, List.mem_cons] at he
    rcases he with he | he
    · exact Or.inl he
    · exact Or.inr (validateLoop_events es _ e he)

theorem in_range_iff (x : ℚ) : ¬ outOfRange (Double.finite x) ↔ 1 ≤ x ∧ x ≤ 127 := by
  unfold outOfRange Double.ltConst Double.gtConst
  rw [not_or, not_lt, not_lt]

theorem sendArg_finite (nanByte : Nat) (x : ℚ) :
    sendArg nanByte (Double.finite x) = doubleToUChar x := rfl

/-- For an accepted interval the byte sent is the integer part. -/
theorem doubleToUChar_floor (x : ℚ) (h1 : 1 ≤ x) (h2 : x ≤ 127) :
    (doubleToUChar x : ℤ) = ⌊x⌋ ∧ 1 ≤ doubleToUChar x ∧ doubleToUChar x ≤ 127 := by
  have hf1 : 1 ≤ ⌊x⌋ := Int.le_floor.2 (by simpa using h1)
  have hf2 : ⌊x⌋ ≤ 127 := by
    have : ⌊x⌋ ≤ ⌊(127 : ℚ)⌋ := Int.floor_mono h2
    simpa using this
  have hnum : 0 ≤ x.num := Rat.num_nonneg.2 (le_trans (by norm_num) h1)
  have hdiv : Int.tdiv x.num x.den = ⌊x⌋ := by
    rw [Int.tdiv_eq_ediv hnum (Int.ofNat_nonneg _), Rat.floor_def]
  unfold doubleToUChar
  rw [hdiv]
  omega

/-! ## The run of `main` -/

theorem sentBytes_append (a b : List Event) : sentBytes (a ++ b) = sentBytes a ++ sentBytes b := by
  simp [sentBytes, List.filterMap_append]

theorem sentBytes_eq_nil (tr : List Event) (h : ∀ e ∈ tr, ∀ c b, e ≠ Event.sendByte c b) :
    sentBytes tr = [] := by
  unfold sentBytes
  rw [List.filterMap_eq_nil_iff]
  intro e he
  cases e with
  | sendByte c b => exact absurd rfl (h _ he c b)
  | _ => rfl

theorem portNumConnect_trace_discovery (t : Transport) :
    ∀ e ∈ (portNumConnect t).2.trace, e.isDiscovery = true := by
  intro e he
  rcases portNumConnect_cases t with ⟨_, _, _, _, _, _, r7⟩ | ⟨_, _, _, _, _, r6⟩
  · rw [r7, mem_visits] at he
    obtain ⟨c, _, hev⟩ := he
    exact visit_isDiscovery t c e hev
  · rw [r6, mem_visits] at he
    obtain ⟨c, _, hev⟩ := he
    exact visit_isDiscovery t c e hev

theorem portNumConnect_no_send (t : Transport) :
    ∀ e ∈ (portNumConnect t).2.trace, ∀ c b, e ≠ Event.sendByte c b := by
  intro e he c b h
  have := portNumConnect_trace_discovery t e he
  rw [h] at this
  exact Bool.false_ne_true this

theorem readRate_no_send (es : List (Option Double)) :
    ∀ e ∈ (readRate es).2, ∀ c b, e ≠ Event.sendByte c b := by
  intro e he c b h
  rcases readRate_events es e he with h1 | h1 <;> rw [h1] at h <;> cases h

theorem cycles_no_send (port : Nat) (cs : List Cycle) :
    ∀ e ∈ (cs.map (Cycle.events port)).flatten, ∀ c b, e ≠ Event.sendByte c b := by
  intro e he c b h
  simp only [List.mem_flatten, List.mem_map] at he
  obtain ⟨l, ⟨cy, _, rfl⟩, hel⟩ := he
  simp only [Cycle.events, List.mem_cons, List.mem_singleton, List.not_mem_nil, or_false] at hel
  rcases hel with h1 | h1 <;> rw [h1] at h <;> cases h

theorem main_of_returned (inp : Inputs)
    (hret : (portNumConnect inp.transport).1 = Discovery.returned) :
    main inp = session inp (portNumConnect inp.transport).2 := by
  simp only [main, hret]

/-- Shape of the trace once an interval `x` has been accepted: discovery, the
dialogue with the operator, one `RS232_SendByte`, then calls that send nothing
and among which is the `fprintf` of the header. -/
theorem session_trace (inp : Inputs) (d : DState) (x : Double)
    (h : (readRate inp.entries).1 = some x) :
    ∃ tail, (session inp d).trace
        = d.trace ++ (readRate inp.entries).2 ++ Event.sendByte d.port (sendArg inp.nanByte x) :: tail ∧
      (∀ e ∈ tail, ∀ c b, e ≠ Event.sendByte c b) ∧
      Event.fprintf (textBytes (headerText (dateTimeText inp.datetime0 inp.now) inp.halfEven inp.nanText x))
        ∈ tail := by
  have hcs := cycles_no_send d.port (ingestLoop inp.exitChar0 inp.iterations).2
  by_cases hl : (ingestLoop inp.exitChar0 inp.iterations).1 = true
  · refine ⟨(createCSVFile inp.files inp.datetime0 inp.now inp.halfEven inp.nanText x).2.2 ++
      Event.pollComport d.port 4096 (inp.bootData.take 4096) ::
        ((ingestLoop inp.exitChar0 inp.iterations).2.map (Cycle.events d.port)).flatten ++
      [Event.fclose, Event.closeComport d.port], ?_, ?_, ?_⟩
    · simp only [session, h, hl, if_true, List.append_assoc, List.cons_append]
    · intro e he c b hsend
      simp only [createCSVFile, List.mem_append, List.mem_cons, List.mem_singleton,
        List.not_mem_nil, or_false] at he
      rcases he with ((h1 | h1 | h1 | h1) | h1 | h1) | h1 | h1
      · rw [h1] at hsend; cases hsend
      · rw [h1] at hsend; cases hsend
      · rw [h1] at hsend; cases hsend
      · rw [h1] at hsend; cases hsend
      · rw [h1] at hsend; cases hsend
      · exact hcs e h1 c b hsend
      · rw [h1] at hsend; cases hsend
      · rw [h1] at hsend; cases hsend
    · simp [createCSVFile]
  · refine ⟨(createCSVFile inp.files inp.datetime0 inp.now inp.halfEven inp.nanText x).2.2 ++
      Event.pollComport d.port 4096 (inp.bootData.take 4096) ::
        ((ingestLoop inp.exitChar0 inp.iterations).2.map (Cycle.events d.port)).flatten, ?_, ?_, ?_⟩
    · simp only [session, h, hl, Bool.false_eq_true, if_false, List.append_assoc, List.cons_append]
    · intro e he c b hsend
      simp only [createCSVFile, List.mem_append, List.mem_cons, List.mem_singleton,
        List.not_mem_nil, or_false] at he
      rcases he with (h1 | h1 | h1 | h1) | h1 | h1
      · rw [h1] at hsend; cases hsend
      · rw [h1] at hsend; cases hsend
      · rw [h1] at hsend; cases hsend
      · rw [h1] at hsend; cases hsend
      · rw [h1] at hsend; cases hsend
      · exact hcs e h1 c b hsend
    · simp [createCSVFile]

theorem sentBytes_session (inp : Inputs) (x : Double)
    (h : (readRate inp.entries).1 = some x) :
    sentBytes (session inp (portNumConnect inp.transport).2).trace = [sendArg inp.nanByte x] := by
  obtain ⟨tail, htr, hno, _⟩ := session_trace inp (portNumConnect inp.transport).2 x h
  rw [htr, sentBytes_append, sentBytes_append,
    sentBytes_eq_nil _ (portNumConnect_no_send inp.transport),
    sentBytes_eq_nil _ (readRate_no_send inp.entries)]
  have : sentBytes (Event.sendByte (portNumConnect inp.transport).2.port (sendArg inp.nanByte x) :: tail)
      = sendArg inp.nanByte x :: sentBytes tail := by
    simp [sentBytes]
  rw [this, sentBytes_eq_nil tail hno]
  rfl

theorem roundF0_natCast (halfEven : Bool) (n : ℕ) : roundF0 halfEven (n : ℚ) = n := by
  simp [roundF0]

theorem fmtF0_of_pos (halfEven : Bool) (x : ℚ) (hx : 0 < x) :
    fmtF0 halfEven x = toString (roundF0 halfEven x) := by
  have : ¬ x.num < 0 := not_lt.2 (Rat.num_nonneg.2 hx.le)
  simp [fmtF0, this]

/-- The integer printed by `"%.0f"` is at distance at most one half. -/
theorem roundF0_near (halfEven : Bool) (x : ℚ) : |(roundF0 halfEven x : ℚ) - x| ≤ 1 / 2 := by
  have hden : (0 : ℤ) < x.den := Int.ofNat_lt.2 x.den_pos
  have hdenq : (0 : ℚ) < (x.den : ℚ) := by exact_mod_cast x.den_pos
  have hsplit : x.den * (x.num / x.den) + x.num % x.den = x.num := Int.ediv_add_emod _ _
  have hr0 : 0 ≤ x.num % x.den := Int.emod_nonneg _ (ne_of_gt hden)
  have hr1 : x.num % x.den < x.den := Int.emod_lt_of_pos _ hden
  have hx : x = ((x.num / (x.den : ℤ) : ℤ) : ℚ) + ((x.num % (x.den : ℤ) : ℤ) : ℚ) / (x.den : ℚ) := by
    have h1 : ((x.num : ℤ) : ℚ) = (x.den : ℚ) * ((x.num / (x.den : ℤ) : ℤ) : ℚ)
        + ((x.num % (x.den : ℤ) : ℤ) : ℚ) := by exact_mod_cast hsplit.symm
    have h2 : (x.num : ℚ) / (x.den : ℚ) = x := Rat.num_div_den x
    rw [h1] at h2
    exact h2.symm.trans (by field_simp; ring)
  set f : ℤ := x.num / (x.den : ℤ) with hf
  set r : ℤ := x.num % (x.den : ℤ) with hr
  have hfrac0 : (0 : ℚ) ≤ (r : ℚ) / (x.den : ℚ) := div_nonneg (by exact_mod_cast hr0) hdenq.le
  have key : ∀ z : ℤ, (z : ℚ) - x = ((z - f : ℤ) : ℚ) - (r : ℚ) / (x.den : ℚ) := by
    intro z
    have : (z : ℚ) - x = (z : ℚ) - ((f : ℚ) + (r : ℚ) / (x.den : ℚ)) := by rw [← hx]
    rw [this]; push_cast; ring
  have hlow : 2 * r ≤ x.den → |((f : ℤ) : ℚ) - x| ≤ 1 / 2 := by
    intro h
    rw [key f, abs_le]
    have h2 : (r : ℚ) / (x.den : ℚ) ≤ 1 / 2 := by
      rw [div_le_div_iff₀ hdenq (by norm_num)]
      have : ((2 * r : ℤ) : ℚ) ≤ ((x.den : ℤ) : ℚ) := by exact_mod_cast h
      push_cast at this
      linarith
    simp only [sub_self, Int.cast_zero, zero_sub]
    constructor <;> linarith
  have hhigh : (x.den : ℤ) ≤ 2 * r → |((f + 1 : ℤ) : ℚ) - x| ≤ 1 / 2 := by
    intro h
    rw [key (f + 1), abs_le]
    have h2 : 1 / 2 ≤ (r : ℚ) / (x.den : ℚ) := by
      rw [div_le_div_iff₀ (by norm_num) hdenq]
      have : ((x.den : ℤ) : ℚ) ≤ ((2 * r : ℤ) : ℚ) := by exact_mod_cast h
      push_cast at this
      linarith
    have h3 : (r : ℚ) / (x.den : ℚ) ≤ 1 := by
      rw [div_le_one hdenq]
      exact_mod_cast hr1.le
    have h4 : ((f + 1 - f : ℤ) : ℚ) = 1 := by push_cast; ring
    rw [h4]
    constructor <;> linarith
  unfold roundF0
  simp only [← hf, ← hr]
  split
  · exact hlow (by omega)
  · split
    · exact hhigh (by omega)
    · split
      · split
        · exact hlow (by omega)
        · exact hhigh (by omega)
      · split
        · exact hhigh (by omega)
        · exact hlow (by omega)

/-- The entries `200` and "not a number" are both rejected. -/
theorem demo_rejected :
    ∀ e ∈ [some (Double.finite 200), none], ∀ v, e = some v → outOfRange v := by
  intro e he v hv
  simp only [List.mem_cons, List.mem_singleton, List.not_mem_nil, or_false] at he
  rcases he with he | he
  · rw [he] at hv
    cases hv
    right
    unfold Double.gtConst
    norm_num
  · rw [he] at hv
    cases hv

/-! ## The ingestion loop -/

theorem takeWhile_append_zeros (d : List Byte) (m : Nat) :
    (d ++ List.replicate m (0 : Byte)).takeWhile (fun b => b != 0)
      = d.takeWhile (fun b => b != 0) := by
  induction d with
  | nil => cases m <;> simp [List.replicate]
  | cons x d ih =>
    by_cases hx : x = 0
    · simp [hx]
    · simp [List.takeWhile_cons, hx, ih]

theorem cstr_pollInto_zeros (data : List Byte) (n size : Nat) :
    cstr (pollInto (List.replicate n 0) data size)
      = (data.take size).takeWhile (fun b => b != 0) := by
  unfold cstr pollInto
  rw [List.drop_replicate]
  exact takeWhile_append_zeros _ _

theorem ingestLoop_step (ex : Byte) (hex : ex ≠ exitKey) (key : Option Byte)
    (data : List Byte) (rest : List (Option Byte × List Byte)) :
    ingestLoop ex ((key, data) :: rest)
      = ((ingestLoop (key.getD ex) rest).1,
          cycleOf (key, data) :: (ingestLoop (key.getD ex) rest).2) := by
  have hk : (match key with | some k => k | none => ex) = key.getD ex := by
    cases key <;> rfl
  simp only [ingestLoop, hex, ne_eq, not_false_eq_true, if_true, hk, cycleOf,
    cstr_pollInto_zeros]

theorem ingestLoop_exit (its : List (Option Byte × List Byte)) :
    ingestLoop exitKey its = (true, []) := by
  cases its with
  | nil => simp [ingestLoop]
  | cons it its => obtain ⟨k, d⟩ := it; simp [ingestLoop]

/-- The cycles made are those of an initial part of the iterations. -/
theorem ingestLoop_cycles :
    ∀ (its : List (Option Byte × List Byte)) (ex : Byte),
      ∃ n, n ≤ its.length ∧ (ingestLoop ex its).2 = (its.take n).map cycleOf := by
  intro its
  induction its with
  | nil => intro ex; exact ⟨0, Nat.le_refl 0, by simp [ingestLoop]⟩
  | cons it its ih =>
    intro ex
    obtain ⟨key, data⟩ := it
    by_cases hex : ex = exitKey
    · exact ⟨0, Nat.zero_le _, by rw [hex, ingestLoop_exit]; rfl⟩
    · obtain ⟨n, hn, h⟩ := ih (key.getD ex)
      refine ⟨n + 1, by simp only [List.length_cons]; omega, ?_⟩
      rw [ingestLoop_step ex hex, h]
      rfl

/-- With the key `e` waiting at an iteration that the loop reaches, the loop
makes the cycle of that iteration and stops. -/
theorem ingestLoop_cancel (d : List Byte) (rest : List (Option Byte × List Byte)) :
    ∀ (pre : List (Option Byte × List Byte)) (ex : Byte), ex ≠ exitKey →
      (∀ p ∈ pre, p.1 ≠ some exitKey) →
      ingestLoop ex (pre ++ (some exitKey, d) :: rest)
        = (true, (pre ++ [(some exitKey, d)]).map cycleOf) := by
  intro pre
  induction pre with
  | nil =>
    intro ex hex _
    rw [List.nil_append, ingestLoop_step ex hex]
    simp only [Option.getD_some, ingestLoop_exit]
    rfl
  | cons p pre ih =>
    intro ex hex hpre
    obtain ⟨key, data⟩ := p
    have hkey : key.getD ex ≠ exitKey := by
      cases key with
      | none => exact hex
      | some k =>
        intro h
        exact hpre (some k, data) (List.mem_cons_self _ _) (by rw [← h]; rfl)
    rw [List.cons_append, ingestLoop_step ex hex,
      ih (key.getD ex) hkey (fun q hq => hpre q (List.mem_cons_of_mem _ hq))]
    rfl

/-! ## The record file -/

theorem fileContent_fopenW (fs : FileSys) (name : String) :
    fileContent (fopenW fs name) name = some [] := by
  simp [fileContent, fopenW]

theorem fileContent_cons (f : String × List Byte) (fs : FileSys) (name : String) :
    fileContent (f :: fs) name = if f.1 == name then some f.2 else fileContent fs name := by
  unfold fileContent
  rw [List.find?_cons]
  cases f.1 == name <;> rfl

theorem fileContent_fappend (fs : FileSys) (name : String) (bytes : List Byte) :
    fileContent (fappend fs name bytes) name
      = (fileContent fs name).map (fun old => old ++ bytes) := by
  induction fs with
  | nil => rfl
  | cons f fs ih =>
    have hcons : fappend (f :: fs) name bytes
        = (if f.1 == name then (f.1, f.2 ++ bytes) else f) :: fappend fs name bytes := rfl
    rw [hcons, fileContent_cons, fileContent_cons, ih]
    cases hf : f.1 == name
    · simp [hf]
    · simp [hf]

/-- Name and content of the record file once an interval has been accepted. -/
theorem session_file (inp : Inputs) (d : DState) (x : Double)
    (h : (readRate inp.entries).1 = some x) :
    (session inp d).fp = some (csvName inp.files inp.datetime0 inp.now) ∧
      fileContent (session inp d).files (csvName inp.files inp.datetime0 inp.now)
        = some (textBytes (headerText (dateTimeText inp.datetime0 inp.now) inp.halfEven inp.nanText x)
            ++ textBytes columnText
            ++ ((ingestLoop inp.exitChar0 inp.iterations).2.map (fun c => c.written)).flatten) := by
  by_cases hl : (ingestLoop inp.exitChar0 inp.iterations).1 = true
  · simp only [session, h, hl, if_true, createCSVFile, fileContent_fappend, fileContent_fopenW,
      Option.map_some', List.nil_append, and_self]
  · simp only [session, h, hl, Bool.false_eq_true, if_false, createCSVFile, fileContent_fappend,
      fileContent_fopenW, Option.map_some', List.nil_append, and_self]

theorem fileExists_fappend (fs : FileSys) (name p : String) (bytes : List Byte) :
    fileExists (fappend fs name bytes) p = fileExists fs p := by
  induction fs with
  | nil => rfl
  | cons f fs ih =>
    unfold fileExists fappend at ih ⊢
    rw [List.map_cons, List.any_cons, List.any_cons, ih]
    congr 1
    split <;> rfl

theorem fileExists_fopenW (fs : FileSys) (name p : String) (h : name ≠ p) :
    fileExists (fopenW fs name) p = fileExists fs p := by
  unfold fileExists fopenW
  rw [List.any_cons]
  have h1 : (name == p) = false := by simpa using h
  simp only [h1, Bool.false_or]
  induction fs with
  | nil => rfl
  | cons f fs ih =>
    by_cases hf : f.1 = name
    · have h2 : (f.1 == p) = false := by rw [hf]; exact h1
      have hb : (f.1 != name) = false := by simp [hf]
      simp only [List.filter_cons, hb, Bool.false_eq_true, if_false, List.any_cons, h2,
        Bool.false_or]
      exact ih
    · have hb : (f.1 != name) = true := by simp [hf]
      simp only [List.filter_cons, hb, if_true, List.any_cons, ih]

theorem append_csv_ne (s : String) : s ++ ".csv" ≠ s := by
  intro h
  have := congrArg String.length h
  rw [String.length_append] at this
  have h4 : (".csv" : String).length = 4 := by decide
  omega

theorem csvName_of_absent (fs : FileSys) (datetime0 : String) (tm : Tm)
    (h : fileExists fs (probeName datetime0 tm) = false) :
    csvName fs datetime0 tm = probeName datetime0 tm ++ ".csv" := by
  simp [csvName, h]

/-- Whatever the date and time: when no file bears the name without extension,
a second `createCSVFile` in the same second opens for writing the name opened
by the first one. -/
theorem createCSVFile_same_name (fs : FileSys) (datetime0 : String) (tm : Tm)
    (he1 he2 : Bool) (nt1 nt2 : String) (r1 r2 : Double) (h : fileExists fs (probeName datetime0 tm) = false) :
    (createCSVFile fs datetime0 tm he1 nt1 r1).1 = probeName datetime0 tm ++ ".csv" ∧
      (createCSVFile (createCSVFile fs datetime0 tm he1 nt1 r1).2.1 datetime0 tm he2 nt2 r2).1
        = probeName datetime0 tm ++ ".csv" := by
  have hname := csvName_of_absent fs datetime0 tm h
  have h2 : fileExists (createCSVFile fs datetime0 tm he1 nt1 r1).2.1 (probeName datetime0 tm)
      = false := by
    simp only [createCSVFile, fileExists_fappend]
    rw [fileExists_fopenW _ _ _ (by rw [hname]; exact append_csv_ne _), h]
  exact ⟨hname, csvName_of_absent _ datetime0 tm h2⟩

/-- A NaN ends the validation loop: for the entries 300 and `nan` the first is
rejected, the second is not, and `main` sends the byte the implementation
makes of a NaN (here 0). -/
theorem nan_ends_validation :
    outOfRange (Double.finite 300) ∧ ¬ outOfRange Double.nan ∧
      (readRate nanInputs.entries).1 = some Double.nan ∧
      sentBytes (main nanInputs).trace = [0] := by
  refine ⟨by decide, by decide, by decide, by decide⟩

/-! ## Discovery: the claims -/

/-- C1: when every channel below `k` either fails to open or never returns a
poll whose first byte is the sentinel, and channel `k < 20` opens and returns
such a poll within its first 100 polls, `portNumConnect` returns with
`port = k` and `flag = 1`, and none of its calls acts on a channel above `k`. -/
theorem C1_returns_first_responder (t : Transport) (k : Nat) (hk : k < 20)
    (hbelow : ∀ c, c < k →
      t.openFails c = true ∨ ∀ i, sentinelFirst (t.pollData c i) = false)
    (hopen : t.openFails k = false)
    (hanswer : ∃ i, i < 100 ∧ sentinelFirst (t.pollData k i) = true) :
    (portNumConnect t).1 = Discovery.returned ∧ (portNumConnect t).2.port = k ∧
      (portNumConnect t).2.flag = 1 ∧
      ∀ e ∈ (portNumConnect t).2.trace, ∀ c, e.chan = some c → c ≤ k := by
  have hrk := responsive_of_answer t k hopen hanswer
  have hlow : ∀ c, c < k → responsive t c = false := fun c hc =>
    not_responsive_of_silent t c (hbelow c hc)
  rcases portNumConnect_cases t with ⟨r1, r2, r3, r4, r5, _, r7⟩ | ⟨_, _, r3, _⟩
  · have hport : (portNumConnect t).2.port = k := by
      rcases Nat.lt_trichotomy (portNumConnect t).2.port k with h | h | h
      · rw [hlow _ h] at r3; exact absurd r3 Bool.false_ne_true
      · exact h
      · rw [r4 k h] at hrk; exact absurd hrk Bool.false_ne_true
    refine ⟨r1, hport, r5, ?_⟩
    intro e he c hc
    rw [r7, mem_visits] at he
    obtain ⟨c1, hc1, hev⟩ := he
    rw [visit_chan t c1 e hev] at hc
    cases hc
    omega
  · rw [r3 k hk] at hrk
    exact absurd hrk Bool.false_ne_true

theorem C1_returns_first_responder_witness :
    (2 < 20 ∧
      (∀ c, c < 2 → demoTransport.openFails c = true ∨
        ∀ i, sentinelFirst (demoTransport.pollData c i) = false) ∧
      demoTransport.openFails 2 = false ∧
      (∃ i, i < 100 ∧ sentinelFirst (demoTransport.pollData 2 i) = true)) ∧
    ((portNumConnect demoTransport).1 = Discovery.returned ∧
      (portNumConnect demoTransport).2.port = 2 ∧
      (portNumConnect demoTransport).2.flag = 1 ∧
      ∀ e ∈ (portNumConnect demoTransport).2.trace, ∀ c, e.chan = some c → c ≤ 2) :=
  have h1 : ∀ c, c < 2 → demoTransport.openFails c = true ∨
      ∀ i, sentinelFirst (demoTransport.pollData c i) = false := by
    intro c hc
    interval_cases c
    · left; rfl
    · right; intro i; rfl
  have h2 : ∃ i, i < 100 ∧ sentinelFirst (demoTransport.pollData 2 i) = true :=
    ⟨0, by decide, rfl⟩
  ⟨⟨by decide, h1, rfl, h2⟩, C1_returns_first_responder demoTransport 2 (by decide) h1 rfl h2⟩

/-- C2: when no channel in 0..19 ever returns a poll whose first byte is the
sentinel, `portNumConnect` finishes its scan of the channels 0..19 (each one is
opened, none beyond) on the not-found path and does not return to `main`: the
run ends with `exit(EXIT_FAILURE)` as soon as a key arrives and waits for it
until then; no byte is sent, no file is opened or written, no poll other than
the 16-byte polls of discovery is made, and the files are left as they were. -/
theorem C2_no_device_is_fatal (inp : Inputs)
    (hsilent : ∀ c, c < 20 → inp.transport.openFails c = true ∨
      ∀ i, sentinelFirst (inp.transport.pollData c i) = false) :
    (portNumConnect inp.transport).1 = Discovery.notFound ∧
      (portNumConnect inp.transport).2.port = 20 ∧
      (∀ c, c < 20 → Event.openComport c (inp.transport.openFails c)
        ∈ (portNumConnect inp.transport).2.trace) ∧
      (∀ e ∈ (portNumConnect inp.transport).2.trace, ∀ c, e.chan = some c → c < 20) ∧
      (main inp).outcome
        = (if waitKey inp.ackKeys then Outcome.exitFailure else Outcome.awaitingKey) ∧
      (main inp).trace = (portNumConnect inp.transport).2.trace ++ [Event.notDetected] ∧
      (∀ e ∈ (main inp).trace, e.isDiscovery = true ∨ e = Event.notDetected) ∧
      sentBytes (main inp).trace = [] ∧
      (main inp).files = inp.files ∧ (main inp).fp = none := by
  have hlow : ∀ c, c < 20 → responsive inp.transport c = false := fun c hc =>
    not_responsive_of_silent inp.transport c (hsilent c hc)
  rcases portNumConnect_cases inp.transport with ⟨_, r2, r3, _⟩ | ⟨r1, r2, _, _, _, r6⟩
  · rw [hlow _ r2] at r3
    exact absurd r3 Bool.false_ne_true
  · have hmain : main inp =
        { outcome := if waitKey inp.ackKeys then Outcome.exitFailure else Outcome.awaitingKey
          trace := (portNumConnect inp.transport).2.trace ++ [Event.notDetected]
          files := inp.files
          fp := none } := by
      simp only [main, r1]
    have hdisc : ∀ e ∈ (main inp).trace, e.isDiscovery = true ∨ e = Event.notDetected := by
      intro e he
      rw [hmain] at he
      simp only [List.mem_append, List.mem_singleton] at he
      rcases he with he | he
      · rw [r6, mem_visits] at he
        obtain ⟨c, _, hev⟩ := he
        exact Or.inl (visit_isDiscovery _ c e hev)
      · exact Or.inr he
    refine ⟨r1, r2, ?_, ?_, by rw [hmain], by rw [hmain], hdisc, ?_, by rw [hmain],
      by rw [hmain]⟩
    · intro c hc
      rw [r6, mem_visits]
      exact ⟨c, hc, visit_opens _ c⟩
    · intro e he c hc
      rw [r6, mem_visits] at he
      obtain ⟨c1, hc1, hev⟩ := he
      rw [visit_chan _ c1 e hev] at hc
      cases hc
      exact hc1
    · unfold sentBytes
      rw [List.filterMap_eq_nil_iff]
      intro e he
      rcases hdisc e he with h | h
      · cases e <;> simp_all [Event.isDiscovery]
      · rw [h]

theorem C2_no_device_is_fatal_witness :
    (∀ c, c < 20 → deadInputs.transport.openFails c = true ∨
      ∀ i, sentinelFirst (deadInputs.transport.pollData c i) = false) ∧
    (main deadInputs).outcome = Outcome.exitFailure ∧
    (main deadInputs).files = [] ∧
    sentBytes (main deadInputs).trace = [] :=
  have h : ∀ c, c < 20 → deadInputs.transport.openFails c = true ∨
      ∀ i, sentinelFirst (deadInputs.transport.pollData c i) = false :=
    fun _ _ => Or.inl rfl
  have r := C2_no_device_is_fatal deadInputs h
  ⟨h, r.2.2.2.2.1, r.2.2.2.2.2.2.2.2.1, r.2.2.2.2.2.2.2.1⟩

/-- C8: with the open channels kept as an explicit set, an iteration of
`portNumConnect` that advances past a channel (from any state) ends with
`RS232_CloseComport` on that channel and leaves it out of the set, and an
iteration that returns leaves it in the set; at the end of `portNumConnect`
every channel below `port` has been closed and is not open, on return the
confirmed channel is the one and only open channel, and on the not-found path
no channel is open.  The scan never outlasts its 20 iterations. -/
theorem C8_open_channels (t : Transport) :
    (∀ s : DState, (scanChannel t s).1 = false →
      (scanChannel t s).2.port = s.port + 1 ∧
      s.port ∉ (scanChannel t s).2.openSet ∧
      (scanChannel t s).2.trace.getLast? = some (Event.closeComport s.port)) ∧
    (∀ s : DState, (scanChannel t s).1 = true →
      (scanChannel t s).2.port = s.port ∧ s.port ∈ (scanChannel t s).2.openSet) ∧
    (∀ c, c < (portNumConnect t).2.port →
      Event.closeComport c ∈ (portNumConnect t).2.trace ∧
      c ∉ (portNumConnect t).2.openSet) ∧
    ((portNumConnect t).1 = Discovery.returned →
      (portNumConnect t).2.openSet = [(portNumConnect t).2.port]) ∧
    ((portNumConnect t).1 = Discovery.notFound → (portNumConnect t).2.openSet = []) ∧
    (portNumConnect t).1 ≠ Discovery.outOfFuel := by
  refine ⟨?_, ?_, ?_, ?_, ?_, ?_⟩
  · intro s h
    by_cases ho : t.openFails s.port = true
    · simp [scanChannel, ho, List.mem_filter]
    · by_cases hb : byteAt (handshakeLoop t s.port 100 0 s.bufHandshake).1 0 = handshake
      · simp [scanChannel, ho, hb] at h
      · simp only [scanChannel, ho, hb, Bool.false_eq_true, if_false, ne_eq, not_false_eq_true,
          if_true, List.mem_filter, bne_self_eq_false, and_false, true_and]
        exact List.getLast?_concat _
  · intro s h
    by_cases ho : t.openFails s.port = true
    · simp [scanChannel, ho] at h
    · by_cases hb : byteAt (handshakeLoop t s.port 100 0 s.bufHandshake).1 0 = handshake
      · simp [scanChannel, ho, hb]
      · simp [scanChannel, ho, hb] at h
  · intro c hc
    rcases portNumConnect_cases t with ⟨_, _, _, r4, _, r6, r7⟩ | ⟨_, r2, r3, _, r5, r6⟩
    · constructor
      · rw [r7, mem_visits]
        exact ⟨c, by omega, visit_closes t c (r4 c hc)⟩
      · rw [r6]
        simp only [List.mem_singleton]
        omega
    · constructor
      · rw [r6, mem_visits]
        rw [r2] at hc
        exact ⟨c, hc, visit_closes t c (r3 c hc)⟩
      · rw [r5]
        exact List.not_mem_nil c
  · intro _
    rcases portNumConnect_cases t with ⟨_, _, _, _, _, r6, _⟩ | ⟨r1, _⟩
    · exact r6
    · simp_all
  · intro _
    rcases portNumConnect_cases t with ⟨r1, _⟩ | ⟨_, _, _, _, r5, _⟩
    · simp_all
    · exact r5
  · rcases portNumConnect_cases t with ⟨r1, _⟩ | ⟨r1, _⟩ <;> rw [r1] <;> decide

/-- C9: a channel `c` that `portNumConnect` opens successfully is polled at
least once and at most 100 times; its `j`-th poll delivers what the line offers
to it, and no poll but the last one delivers the sentinel as first byte; the
channel is confirmed (`portNumConnect` returns with `port = c`) exactly when
one of these polls delivered the sentinel as first byte, which is the case
exactly when the sentinel comes within the first 100 polls, the 100th one
included. -/
theorem C9_handshake_budget (t : Transport) (c : Nat)
    (hopened : Event.openComport c false ∈ (portNumConnect t).2.trace) :
    1 ≤ (pollsOn c (portNumConnect t).2.trace).length ∧
      (pollsOn c (portNumConnect t).2.trace).length ≤ 100 ∧
      pollsOn c (portNumConnect t).2.trace
        = (List.range (pollsOn c (portNumConnect t).2.trace).length).map
            (fun j => (t.pollData c j).take 16) ∧
      (∀ j, j + 1 < (pollsOn c (portNumConnect t).2.trace).length →
        sentinelFirst (t.pollData c j) = false) ∧
      (((portNumConnect t).1 = Discovery.returned ∧ (portNumConnect t).2.port = c) ↔
        ∃ d ∈ pollsOn c (portNumConnect t).2.trace, sentinelFirst d = true) ∧
      (((portNumConnect t).1 = Discovery.returned ∧ (portNumConnect t).2.port = c) ↔
        ∃ j, j < 100 ∧ sentinelFirst (t.pollData c j) = true) ∧
      ((∀ j, j < 99 → sentinelFirst (t.pollData c j) = false) →
        sentinelFirst (t.pollData c 99) = true →
        (pollsOn c (portNumConnect t).2.trace).length = 100 ∧
        (portNumConnect t).1 = Discovery.returned ∧ (portNumConnect t).2.port = c) := by
  -- the channel is one of the channels visited, and its open succeeded
  have key : ∃ n, (portNumConnect t).2.trace = (List.range' 0 n).flatMap (visit t) ∧
      c < n ∧ t.openFails c = false ∧
      (((portNumConnect t).1 = Discovery.returned ∧ (portNumConnect t).2.port = c) ↔
        responsive t c = true) := by
    rcases portNumConnect_cases t with ⟨r1, _, r3, r4, _, _, r7⟩ | ⟨r1, _, r3, _, _, r6⟩
    · rw [r7, mem_visits] at hopened
      obtain ⟨c1, hc1, hev⟩ := hopened
      obtain ⟨rfl, ho⟩ := open_false_mem_visit t c c1 hev
      refine ⟨_, r7, hc1, ho, ?_⟩
      constructor
      · rintro ⟨_, hp⟩
        rw [← hp]; exact r3
      · intro hr
        refine ⟨r1, ?_⟩
        rcases Nat.lt_or_ge c1 (portNumConnect t).2.port with h | h
        · rw [r4 c1 h] at hr
          exact absurd hr Bool.false_ne_true
        · omega
    · rw [r6, mem_visits] at hopened
      obtain ⟨c1, hc1, hev⟩ := hopened
      obtain ⟨rfl, ho⟩ := open_false_mem_visit t c c1 hev
      refine ⟨_, r6, hc1, ho, ?_⟩
      constructor
      · rintro ⟨h, _⟩
        rw [r1] at h
        exact absurd h (by decide)
      · intro hr
        rw [r3 c1 hc1] at hr
        exact absurd hr Bool.false_ne_true
  obtain ⟨n, htr, hcn, ho, hconf⟩ := key
  have hpolls : pollsOn c (portNumConnect t).2.trace
      = (List.range (pollCount t c 100 0)).map (fun j => (t.pollData c j).take 16) := by
    rw [htr, pollsOn_visits t c _ (List.nodup_range' 0 n) (by simp [List.mem_range']; exact hcn),
      pollsOn_visit t c ho]
  have hlen : (pollsOn c (portNumConnect t).2.trace).length = pollCount t c 100 0 := by
    rw [hpolls]; simp
  have hresp : responsive t c = true ↔ ∃ j, j < 100 ∧ sentinelFirst (t.pollData c j) = true := by
    rw [← heard_iff]; simp [responsive, ho]
  have hhit := pollCount_hit t c 100 0
  simp only [Nat.zero_add] at hhit
  have hbefore : ∀ j, j + 1 < pollCount t c 100 0 → sentinelFirst (t.pollData c j) = false := by
    intro j hj
    have := pollCount_before t c 100 0 j hj
    simpa using this
  refine ⟨?_, ?_, ?_, ?_, ?_, ?_, ?_⟩
  · rw [hlen]; exact pollCount_pos t c 99 0
  · rw [hlen]; exact pollCount_le t c 100 0
  · rw [hlen]; exact hpolls
  · rw [hlen]; exact hbefore
  · rw [hconf, hresp, hhit, hpolls]
    constructor
    · rintro ⟨j, hj, hw⟩
      exact ⟨_, List.mem_map.2 ⟨j, List.mem_range.2 hj, rfl⟩, by rw [sentinelFirst_take]; exact hw⟩
    · rintro ⟨d, hd, hw⟩
      obtain ⟨j, hj, rfl⟩ := List.mem_map.1 hd
      rw [sentinelFirst_take] at hw
      exact ⟨j, List.mem_range.1 hj, hw⟩
  · rw [hconf, hresp]
  · intro hno hlast
    have hr : responsive t c = true := hresp.2 ⟨99, by decide, hlast⟩
    refine ⟨?_, hconf.2 hr⟩
    rw [hlen]
    obtain ⟨j, hj, hw⟩ := hhit.1 ⟨99, by decide, hlast⟩
    have hle := pollCount_le t c 100 0
    have hj99 : ¬ j < 99 := fun h => by
      rw [hno j h] at hw
      exact Bool.false_ne_true hw
    omega

theorem C9_handshake_budget_witness :
    Event.openComport 2 false ∈ (portNumConnect demoTransport).2.trace ∧
    (pollsOn 2 (portNumConnect demoTransport).2.trace).length ≤ 100 ∧
    (((portNumConnect demoTransport).1 = Discovery.returned ∧
        (portNumConnect demoTransport).2.port = 2) ↔
      ∃ j, j < 100 ∧ sentinelFirst (demoTransport.pollData 2 j) = true) :=
  have h : Event.openComport 2 false ∈ (portNumConnect demoTransport).2.trace := by decide
  have r := C9_handshake_budget demoTransport 2 h
  ⟨h, r.2.1, r.2.2.2.2.2.1⟩

/-! ## The sampling interval: the claims -/

/-- C3, as stated, fails: with the interval 1.25 entered (which lies in
[1,127]), the one byte sent is 1 and the header field reads `1`; neither
denotes 1.25. -/
theorem C3_counterexample_fraction :
    (1 ≤ mkRat 5 4 ∧ mkRat 5 4 ≤ 127) ∧
    fracInputs.entries = [some (Double.finite (mkRat 5 4))] ∧
    sentBytes (main fracInputs).trace = [1] ∧
    ((1 : ℕ) : ℚ) ≠ mkRat 5 4 ∧
    Event.fprintf (textBytes "Date & Time:,2018-9-11_10.5.7\nSecond per Sample:,1\n\n")
      ∈ (main fracInputs).trace ∧
    fmtF0 fracInputs.halfEven (mkRat 5 4) = "1" := by
  refine ⟨by decide, rfl, by decide, by decide, by decide, by decide⟩

/-- C3, amended: when discovery has confirmed a channel and the first entry
that is not rejected is `x` with `1 ≤ x ≤ 127`, `main` sends exactly one byte,
to the confirmed channel, and this byte is the integer part of `x`; when `x`
is a whole number `n`, the byte is `n` and the header written by
`createCSVFile` reads `Second per Sample:,n`, so both denote exactly `x`. -/
theorem C3_interval_sent_and_recorded (inp : Inputs) (pre rest : List (Option Double)) (x : ℚ)
    (hret : (portNumConnect inp.transport).1 = Discovery.returned)
    (hentries : inp.entries = pre ++ some (Double.finite x) :: rest)
    (hpre : ∀ e ∈ pre, ∀ v, e = some v → outOfRange v)
    (h1 : 1 ≤ x) (h2 : x ≤ 127) :
    sentBytes (main inp).trace = [doubleToUChar x] ∧
      Event.sendByte (portNumConnect inp.transport).2.port (doubleToUChar x) ∈ (main inp).trace ∧
      (doubleToUChar x : ℤ) = ⌊x⌋ ∧
      (∀ n : ℕ, x = n → doubleToUChar x = n ∧
        Event.fprintf (textBytes ("Date & Time:," ++ dateTimeText inp.datetime0 inp.now
            ++ "\nSecond per Sample:," ++ toString (n : ℤ) ++ "\n\n")) ∈ (main inp).trace) := by
  have hx : ¬ outOfRange (Double.finite x) := (in_range_iff x).2 ⟨h1, h2⟩
  have hrr : (readRate inp.entries).1 = some (Double.finite x) := by
    rw [hentries, readRate_first_valid _ hx pre rest hpre]
  obtain ⟨tail, htr, _, hhdr⟩ :=
    session_trace inp (portNumConnect inp.transport).2 (Double.finite x) hrr
  rw [sendArg_finite] at htr
  have hfloor := doubleToUChar_floor x h1 h2
  refine ⟨?_, ?_, hfloor.1, ?_⟩
  · rw [main_of_returned inp hret]
    exact sentBytes_session inp (Double.finite x) hrr
  · rw [main_of_returned inp hret, htr]
    simp
  · intro n hn
    constructor
    · have := hfloor.1
      rw [hn, Int.floor_natCast] at this
      rw [hn]
      exact_mod_cast this
    · have htext : headerText (dateTimeText inp.datetime0 inp.now) inp.halfEven inp.nanText
            (Double.finite x)
          = "Date & Time:," ++ dateTimeText inp.datetime0 inp.now
            ++ "\nSecond per Sample:," ++ toString (n : ℤ) ++ "\n\n" := by
        rw [headerText, fmtRate, fmtF0_of_pos _ x (lt_of_lt_of_le one_pos h1), hn,
          roundF0_natCast]
      rw [← htext, main_of_returned inp hret, htr]
      simp only [List.mem_append, List.mem_cons]
      exact Or.inr (Or.inr hhdr)

theorem C3_interval_sent_and_recorded_witness :
    ((portNumConnect demoInputs.transport).1 = Discovery.returned ∧
      demoInputs.entries = [some (Double.finite 200), none] ++ some (Double.finite 5)
        :: [some (Double.finite 7)] ∧
      (∀ e ∈ [some (Double.finite 200), none], ∀ v, e = some v → outOfRange v) ∧
      (1 : ℚ) ≤ 5 ∧ (5 : ℚ) ≤ 127) ∧
    sentBytes (main demoInputs).trace = [doubleToUChar 5] ∧
    doubleToUChar 5 = 5 ∧
    Event.fprintf (textBytes ("Date & Time:," ++ dateTimeText demoInputs.datetime0 demoInputs.now
        ++ "\nSecond per Sample:," ++ toString (5 : ℤ) ++ "\n\n")) ∈ (main demoInputs).trace :=
  have hret : (portNumConnect demoInputs.transport).1 = Discovery.returned := by decide
  have r := C3_interval_sent_and_recorded demoInputs [some (Double.finite 200), none]
    [some (Double.finite 7)] 5 hret rfl demo_rejected (by norm_num) (by norm_num)
  ⟨⟨hret, rfl, demo_rejected, by norm_num, by norm_num⟩, r.1,
    (r.2.2.2 5 (by norm_num)).1, (r.2.2.2 5 (by norm_num)).2⟩

/-- C5, as stated, fails: when the one poll of the loop delivers a zero byte
followed by `A`, nothing is appended to the record file after the header,
although the chunk polled is made of two bytes. -/
theorem C5_counterexample_zero_byte :
    (ingestLoop zeroInputs.exitChar0 zeroInputs.iterations).2
      = [{ polled := [0, 65], written := [] }] ∧
    (main zeroInputs).fp = some "Temperature_Dataset_2018-9-11_10.5.7.csv" ∧
    fileContent (main zeroInputs).files "Temperature_Dataset_2018-9-11_10.5.7.csv"
      = some (textBytes "Date & Time:,2018-9-11_10.5.7\nSecond per Sample:,5\n\n"
          ++ textBytes columnText ++ []) ∧
    ([] : List Byte) ≠ [0, 65] := by
  refine ⟨by decide, by decide, by decide, by decide⟩

/-- C5, amended: once an interval has been accepted, the record file holds the
header, the column line and then, for the successive 2-byte polls of the
ingestion loop in arrival order, the bytes of each chunk that precede its
first zero byte (`"%s"` stops there); when no byte polled is zero these are
exactly the chunks, concatenated verbatim; for the polls `A1`, `B2`, `C3` the
file receives `A1B2C3`. -/
theorem C5_chunks_appended_in_order (inp : Inputs) (x : Double)
    (hret : (portNumConnect inp.transport).1 = Discovery.returned)
    (hrate : (readRate inp.entries).1 = some x) :
    (main inp).fp = some (csvName inp.files inp.datetime0 inp.now) ∧
      fileContent (main inp).files (csvName inp.files inp.datetime0 inp.now)
        = some (textBytes
              (headerText (dateTimeText inp.datetime0 inp.now) inp.halfEven inp.nanText x)
            ++ textBytes columnText
            ++ ((ingestLoop inp.exitChar0 inp.iterations).2.map (fun c => c.written)).flatten) ∧
      (∃ n, n ≤ inp.iterations.length ∧
        (ingestLoop inp.exitChar0 inp.iterations).2 = (inp.iterations.take n).map cycleOf) ∧
      (∀ c ∈ (ingestLoop inp.exitChar0 inp.iterations).2,
        c.written = c.polled.takeWhile (fun b => b != 0)) ∧
      ((∀ c ∈ (ingestLoop inp.exitChar0 inp.iterations).2, (0 : Byte) ∉ c.polled) →
        ((ingestLoop inp.exitChar0 inp.iterations).2.map (fun c => c.written)).flatten
          = ((ingestLoop inp.exitChar0 inp.iterations).2.map (fun c => c.polled)).flatten) ∧
      (∀ ex : Byte, ex ≠ exitKey →
        ((ingestLoop ex [(none, [65, 49]), (none, [66, 50]), (none, [67, 51])]).2.map
          (fun c => c.written)).flatten = [65, 49, 66, 50, 67, 51]) := by
  obtain ⟨n, hn, hcs⟩ := ingestLoop_cycles inp.iterations inp.exitChar0
  have hwr : ∀ c ∈ (ingestLoop inp.exitChar0 inp.iterations).2,
      c.written = c.polled.takeWhile (fun b => b != 0) := by
    intro c hc
    rw [hcs] at hc
    obtain ⟨it, _, rfl⟩ := List.mem_map.1 hc
    rfl
  rw [main_of_returned inp hret]
  refine ⟨(session_file inp _ x hrate).1, (session_file inp _ x hrate).2, ⟨n, hn, hcs⟩, hwr, ?_, ?_⟩
  · intro hz
    congr 1
    apply List.map_congr_left
    intro c hc
    rw [hwr c hc, List.takeWhile_eq_self_iff]
    intro b hb
    have : b ≠ 0 := fun h => hz c hc (h ▸ hb)
    simpa using this
  · intro ex hex
    rw [ingestLoop_step ex hex, Option.getD_none, ingestLoop_step ex hex, Option.getD_none,
      ingestLoop_step ex hex]
    rfl

theorem C5_chunks_appended_in_order_witness :
    ((portNumConnect demoInputs.transport).1 = Discovery.returned ∧
      (readRate demoInputs.entries).1 = some (Double.finite 5)) ∧
    fileContent (main demoInputs).files "Temperature_Dataset_2018-9-11_10.5.7.csv"
      = some (textBytes "Date & Time:,2018-9-11_10.5.7\nSecond per Sample:,5\n\n"
          ++ textBytes columnText ++ [65, 49, 66, 50]) :=
  have hret : (portNumConnect demoInputs.transport).1 = Discovery.returned := by decide
  have hrate : (readRate demoInputs.entries).1 = some (Double.finite 5) := by decide
  ⟨⟨hret, hrate⟩, (C5_chunks_appended_in_order demoInputs (Double.finite 5) hret hrate).2.1.trans (by decide)⟩

/-- C7: when the ingestion loop of `main` reaches an iteration at whose start
the key `e` is waiting, it makes the poll and the `fprintf` of that iteration
and leaves the loop: the cycles made are those of the iterations up to and
including that one, whatever the line and the keyboard offer afterwards, and
the only calls that follow in `main` are `fclose` and `RS232_CloseComport`. -/
theorem C7_cancel_within_one_cycle (inp : Inputs) (x : Double)
    (pre rest : List (Option Byte × List Byte)) (d : List Byte)
    (hret : (portNumConnect inp.transport).1 = Discovery.returned)
    (hrate : (readRate inp.entries).1 = some x)
    (hiter : inp.iterations = pre ++ (some exitKey, d) :: rest)
    (hrun : inp.exitChar0 ≠ exitKey)
    (hpre : ∀ p ∈ pre, p.1 ≠ some exitKey) :
    ingestLoop inp.exitChar0 inp.iterations
        = (true, pre.map cycleOf ++ [cycleOf (some exitKey, d)]) ∧
      ((ingestLoop inp.exitChar0 inp.iterations).2.length = pre.length + 1) ∧
      (main inp).outcome = Outcome.finished ∧
      ∃ before, (main inp).trace
        = before ++ [Event.pollComport (portNumConnect inp.transport).2.port 2 (d.take 2),
            Event.fprintf ((d.take 2).takeWhile (fun b => b != 0)),
            Event.fclose, Event.closeComport (portNumConnect inp.transport).2.port] := by
  have hloop : ingestLoop inp.exitChar0 inp.iterations
      = (true, pre.map cycleOf ++ [cycleOf (some exitKey, d)]) := by
    rw [hiter, ingestLoop_cancel d rest pre inp.exitChar0 hrun hpre, List.map_append]
    rfl
  rw [main_of_returned inp hret]
  refine ⟨hloop, by rw [hloop]; simp, ?_, ?_⟩
  · simp only [session, hrate, hloop, if_true]
  · simp only [session, hrate, hloop, if_true, List.map_append, List.flatten_append,
      List.map_cons, List.map_nil, List.flatten_cons, List.flatten_nil, List.append_nil,
      Cycle.events, cycleOf]
    refine ⟨(portNumConnect inp.transport).2.trace ++ ((readRate inp.entries).2 ++
      Event.sendByte (portNumConnect inp.transport).2.port (sendArg inp.nanByte x) ::
        ((createCSVFile inp.files inp.datetime0 inp.now inp.halfEven inp.nanText x).2.2 ++
          Event.pollComport (portNumConnect inp.transport).2.port 4096 (inp.bootData.take 4096) ::
            ((pre.map cycleOf).map
              (Cycle.events (portNumConnect inp.transport).2.port)).flatten)), ?_⟩
    simp only [List.append_assoc, List.cons_append, List.nil_append, List.singleton_append]

theorem C7_cancel_within_one_cycle_witness :
    ((portNumConnect demoInputs.transport).1 = Discovery.returned ∧
      (readRate demoInputs.entries).1 = some (Double.finite 5) ∧
      demoInputs.iterations = [(none, [65, 49])] ++ (some exitKey, [66, 50]) :: [(none, [67, 51])] ∧
      demoInputs.exitChar0 ≠ exitKey ∧
      (∀ p ∈ [((none : Option Byte), ([65, 49] : List Byte))], p.1 ≠ some exitKey)) ∧
    (ingestLoop demoInputs.exitChar0 demoInputs.iterations).2.length = 2 ∧
    (main demoInputs).outcome = Outcome.finished :=
  have hret : (portNumConnect demoInputs.transport).1 = Discovery.returned := by decide
  have hrate : (readRate demoInputs.entries).1 = some (Double.finite 5) := by decide
  have hrun : demoInputs.exitChar0 ≠ exitKey := by decide
  have hpre : ∀ p ∈ [((none : Option Byte), ([65, 49] : List Byte))], p.1 ≠ some exitKey := by
    decide
  have r := C7_cancel_within_one_cycle demoInputs (Double.finite 5) [(none, [65, 49])]
    [(none, [67, 51])]
    [66, 50] hret hrate rfl hrun hpre
  ⟨⟨hret, hrate, rfl, hrun, hpre⟩, r.2.1, r.2.2.1⟩

/-! ## The record file: the claim -/

/-- C6, the code at the failing input: two sessions created in the same clock
second.  The second `createCSVFile` looks for the name without `.csv`, which
the first session did not create, so it adds no `_V2`, opens the first
session's file for writing, and the first header is lost. -/
theorem C6_second_session_overwrites :
    firstSession.1 = "Temperature_Dataset_2018-9-11_10.5.7.csv" ∧
    secondSession.1 = "Temperature_Dataset_2018-9-11_10.5.7.csv" ∧
    secondSession.2.2.take 2
      = [Event.fopenRead "Temperature_Dataset_2018-9-11_10.5.7" false,
          Event.fopenWrite "Temperature_Dataset_2018-9-11_10.5.7.csv"] ∧
    fileContent firstSession.2.1 "Temperature_Dataset_2018-9-11_10.5.7.csv"
      = some (textBytes "Date & Time:,2018-9-11_10.5.7\nSecond per Sample:,5\n\n"
          ++ textBytes columnText) ∧
    fileContent secondSession.2.1 "Temperature_Dataset_2018-9-11_10.5.7.csv"
      = some (textBytes "Date & Time:,2018-9-11_10.5.7\nSecond per Sample:,9\n\n"
          ++ textBytes columnText) ∧
    secondSession.2.1.map (fun f => f.1) = ["Temperature_Dataset_2018-9-11_10.5.7.csv"] := by
  refine ⟨by decide, by decide, by decide, by decide, by decide, by decide⟩

end TempLogger
